import Mathlib

/-!
# rof: snapshot, run, restore

A shallow embedding of `main.go`.  The program copies every top-level regular file of
the working directory into `.rof_snapshots`, runs a shell command, copies the snapshots
back when the command fails, and removes the snapshot directory.

Modelling decisions:

* Go strings (file names, run tags, file contents) are Lean `String`s and the string
  functions work on their sequence of units.  The patterns the program looks for
  (`.`, `.bak`, `/`) are ASCII, so byte offsets and unit offsets cut at the same places.
* A directory is an association list from entry names to nodes; the order of the list
  is the order in which `os.ReadDir` enumerates it (no particular order is assumed).
  The working directory is `World.top`; every other directory, wherever it lies, is a
  row of the table `World.subs`.
* A regular file is a name for an inode, and the content belongs to the inode
  (`World.content`): two names with the same inode are hard links to one file.
* A symbolic link holds the place its path leads to (`Target`), which lies in the tree
  or is missing.  `os.Open`, `os.Create` and `os.ReadDir` follow links, `os.Remove` and
  the type a listing reports do not.
* `filepath.Join` cleans its result; a path is kept as the list of its components.
  The directory above the working directory is not part of the tree: a path that leads
  there leaves the tree for good, what is written there is out of sight and nothing is
  read from there.
* System calls can fail for reasons the tree does not show (permissions, full disk).
  Those are decided by a `Faults` oracle that is part of the world, so the executed
  command can change it as well.
* Everything the program writes to the error stream is collected in a log of `Msg`s.
-/

namespace Rof

/-- The constant `snapshotDir` of `main.go`. -/
def snapshotDir : String := ".rof_snapshots"

/-! ## String functions -/

/-- Go `strings.HasSuffix(s, suffix)`. -/
def hasSuffix (s suffix : String) : Bool :=
  suffix.data.isSuffixOf s.data

/-- Go `strings.LastIndex(s, ".")` on the units of `s`; `none` stands for `-1`. -/
def lastIndexDot : List Char → Option Nat
  | [] => none
  | c :: cs =>
    match lastIndexDot cs with
    | some i => some (i + 1)
    | none => if c = '.' then some 0 else none

/-- Go slice expression `s[:i]`. -/
def sliceTo (s : String) (i : Nat) : String :=
  String.mk (s.data.take i)

/-- Go `len(s)`. -/
def len (s : String) : Nat :=
  s.data.length

/-! ## Paths -/

/-- A relative path, as the list of its components; the empty list is `.`. -/
abbrev Path := List String

/-- The pieces of a path string between its separators `/`. -/
def splitSlash : List Char → List (List Char)
  | [] => [[]]
  | c :: cs =>
    match splitSlash cs with
    | [] => [[]]
    | x :: xs => if c = '/' then [] :: x :: xs else (c :: x) :: xs

/-- One step of `filepath.Clean` on a relative path; the components kept so far are held
last one first.  Empty components and `.` are dropped, `..` removes the component before
it unless there is none or it is `..` itself. -/
def cleanStep (kept : List String) (c : String) : List String :=
  if c = "" ∨ c = "." then kept
  else if c = ".." then
    match kept with
    | [] => [".."]
    | k :: rest => if k = ".." then ".." :: k :: rest else rest
  else c :: kept

/-- Go `filepath.Clean` on a relative path given by its pieces. -/
def clean (pieces : List String) : Path :=
  (pieces.foldl cleanStep []).reverse

/-- Go `filepath.Join(dir, name)` for a non-empty relative `dir`: the cleaned path
`dir/name`. -/
def joinPath (dir name : String) : Path :=
  clean ((splitSlash (dir ++ "/" ++ name).data).map String.mk)

/-- The path `filepath.Join(snapshotDir, name)` when `name` is the name of a directory
entry, as `os.ReadDir` returns it: such a name has no separator and is neither empty,
`.` nor `..`, so that cleaning leaves the two components as they are (theorem
`joinPath_snapshotDir`). -/
def snapPath (name : String) : Path :=
  [snapshotDir, name]

/-! ## The file system -/

/-- A directory of the model: the working directory or a row of the directory table. -/
inductive DirRef where
  | cwd
  | sub (id : Nat)
  deriving DecidableEq

/-- The place the path stored in a symbolic link leads to: an entry of a directory
(present or not) or a directory itself. -/
inductive Target where
  | entry (dir : DirRef) (name : String)
  | dir (d : DirRef)
  deriving DecidableEq

/-- An entry of a directory: a regular file (a name of an inode), a directory, a
symbolic link, or anything else (device, socket, pipe). -/
inductive Node where
  | file (ino : Nat)
  | dir (id : Nat)
  | link (target : Target)
  | other
  deriving DecidableEq

/-- Failures of system calls that the tree does not determine. -/
structure Faults where
  /-- Whether `os.Mkdir(snapshotDir)` fails with an error other than "already exists". -/
  mkdirFails : Bool
  /-- Whether `os.ReadDir(".")` fails. -/
  readCwdFails : Bool
  /-- Whether `os.ReadDir(snapshotDir)` fails although the directory exists. -/
  readSnapFails : Bool
  /-- Whether `os.Open` of the path fails although it leads to a file. -/
  openFails : Path → Bool
  /-- Whether `os.Create` of the path fails although nothing in the tree prevents it. -/
  createFails : Path → Bool
  /-- Whether `io.Copy` from the first path to the second fails, and after how many units. -/
  copyFails : Path → Path → Option Nat
  /-- Whether `os.Remove` of the path fails although nothing in the tree prevents it. -/
  removeFails : Path → Bool

/-- The state of the world the program acts on. -/
structure World where
  /-- The entries of the working directory, in enumeration order. -/
  top : List (String × Node)
  /-- The other directories, by their identifier. -/
  subs : List (Nat × List (String × Node))
  /-- The content of each inode. -/
  content : Nat → String
  faults : Faults

/-- First entry with the given key. -/
def lookup {κ α : Type} [DecidableEq κ] : List (κ × α) → κ → Option α
  | [], _ => none
  | (m, x) :: rest, n => if m = n then some x else lookup rest n

/-- Replace the entry with the given key, or add it at the end. -/
def setEntry {κ α : Type} [DecidableEq κ] : List (κ × α) → κ → α → List (κ × α)
  | [], n, v => [(n, v)]
  | (m, x) :: rest, n, v => if m = n then (n, v) :: rest else (m, x) :: setEntry rest n v

/-- Remove the entries with the given key. -/
def eraseEntry {κ α : Type} [DecidableEq κ] (es : List (κ × α)) (n : κ) : List (κ × α) :=
  es.filter fun e => decide (e.1 ≠ n)

/-- The entries of a directory, if it exists. -/
def entriesOf (w : World) : DirRef → Option (List (String × Node))
  | DirRef.cwd => some w.top
  | DirRef.sub id => lookup w.subs id

/-- The world with the entries of a directory replaced. -/
def setEntries (w : World) (d : DirRef) (es : List (String × Node)) : World :=
  match d with
  | DirRef.cwd => { w with top := es }
  | DirRef.sub id => { w with subs := setEntry w.subs id es }

/-- The world with the content of an inode replaced. -/
def setContent (w : World) (i : Nat) (data : String) : World :=
  { w with content := fun j => if j = i then data else w.content j }

/-- The inodes the entries of a directory name. -/
def inosOf (es : List (String × Node)) : List Nat :=
  es.filterMap fun p =>
    match p.2 with
    | Node.file i => some i
    | _ => none

/-- The inodes named anywhere in the tree. -/
def allInos (w : World) : List Nat :=
  inosOf w.top ++ (w.subs.map fun r => inosOf r.2).flatten

/-- An inode number no entry of the tree names. -/
def freshIno (w : World) : Nat :=
  (allInos w).foldr max 0 + 1

/-- The directory identifiers the entries of a directory mention. -/
def dirIdsOf (es : List (String × Node)) : List Nat :=
  es.filterMap fun p =>
    match p.2 with
    | Node.dir id => some id
    | Node.link (Target.entry (DirRef.sub id) _) => some id
    | Node.link (Target.dir (DirRef.sub id)) => some id
    | _ => none

/-- A directory identifier that is neither in the table nor mentioned anywhere. -/
def freshDir (w : World) : Nat :=
  (w.subs.map Prod.fst ++ dirIdsOf w.top ++ (w.subs.map fun r => dirIdsOf r.2).flatten).foldr
    max 0 + 1

/-- What a path leads to. -/
inductive Resolved where
  /-- A regular file. -/
  | file (ino : Nat)
  /-- A free name in an existing directory. -/
  | absent (dir : DirRef) (name : String)
  /-- A directory; `none` is the directory above the working directory. -/
  | directory (d : Option DirRef)
  /-- A device, socket or pipe. -/
  | special
  /-- A place above the working directory. -/
  | elsewhere
  /-- No such file or directory, not a directory, or too many links. -/
  | failure
  deriving DecidableEq

/-- The number of symbolic links the kernel follows before it gives up. -/
def maxSymlinks : Nat := 40

/-- What one look at the entry `name` of directory `d` finds: the place it leads to, or
a symbolic link that has to be followed. -/
inductive Look where
  | done (r : Resolved)
  | linkTo (t : Target)

/-- One look at the entry `name` of directory `d`. -/
def look (w : World) (d : DirRef) (name : String) : Look :=
  if name = "" then Look.done Resolved.failure
  else if name = "." then Look.done (Resolved.directory (some d))
  else if name = ".." then Look.done (Resolved.directory none)
  else
    match entriesOf w d with
    | none => Look.done Resolved.failure
    | some es =>
      match lookup es name with
      | none => Look.done (Resolved.absent d name)
      | some (Node.file i) => Look.done (Resolved.file i)
      | some (Node.dir id) => Look.done (Resolved.directory (some (DirRef.sub id)))
      | some Node.other => Look.done Resolved.special
      | some (Node.link t) => Look.linkTo t

/-- What the entry `name` of directory `d` leads to when symbolic links are followed,
at most `fuel` of them. -/
def follow (w : World) : Nat → DirRef → String → Resolved
  | 0, d, name =>
    match look w d name with
    | Look.done r => r
    | Look.linkTo _ => Resolved.failure
  | fuel + 1, d, name =>
    match look w d name with
    | Look.done r => r
    | Look.linkTo (Target.dir d') => Resolved.directory (some d')
    | Look.linkTo (Target.entry d' name') => follow w fuel d' name'

/-- What a path leads to, walked from directory `d`: every component but the last must
lead to a directory. -/
def resolve (w : World) : DirRef → Path → Resolved
  | d, [] => Resolved.directory (some d)
  | d, [c] => follow w maxSymlinks d c
  | d, c :: c' :: rest =>
    match follow w maxSymlinks d c with
    | Resolved.directory (some d') => resolve w d' (c' :: rest)
    | Resolved.directory none => Resolved.elsewhere
    | _ => Resolved.failure

/-- The directory and the name a path ends in, for the calls that do not follow a
link in the last component. -/
def resolveParent (w : World) : DirRef → Path → Option (DirRef × String)
  | _, [] => none
  | d, [c] => some (d, c)
  | d, c :: c' :: rest =>
    match follow w maxSymlinks d c with
    | Resolved.directory (some d') => resolveParent w d' (c' :: rest)
    | _ => none

/-- What `os.ReadDir` reports about an entry: `entry.Name()` and
`entry.Type().IsRegular()`. -/
structure DirEntry where
  name : String
  isRegular : Bool
  deriving DecidableEq

/-- The directory entry of a node; the type is that of the entry itself, a symbolic link
is not followed. -/
def DirEntry.ofNode (e : String × Node) : DirEntry :=
  ⟨e.1, match e.2 with
        | Node.file _ => true
        | _ => false⟩

/-- Model of `os.ReadDir(".")`; `none` is an error. -/
def readDirCwd (w : World) : Option (List DirEntry) :=
  if w.faults.readCwdFails then none else some (w.top.map DirEntry.ofNode)

/-- The directory the path `.rof_snapshots` leads to, if it leads to one. -/
def snapDir (w : World) : Option DirRef :=
  match follow w maxSymlinks DirRef.cwd snapshotDir with
  | Resolved.directory (some d) => some d
  | _ => none

/-- Model of `os.ReadDir(snapshotDir)`; `none` is an error. -/
def readDirSnap (w : World) : Option (List DirEntry) :=
  match snapDir w with
  | none => none
  | some d =>
    match entriesOf w d with
    | none => none
    | some es => if w.faults.readSnapFails then none else some (es.map DirEntry.ofNode)

/-- The names that are not names of entries: the empty name and the two names every
directory reserves. -/
def isSpecialName (n : String) : Bool :=
  n = "" || n = "." || n = ".."

/-- What `os.Open` returns on success: a regular file or a directory (which can be
opened, though not read like a file). -/
inductive Source where
  | file (ino : Nat)
  | directory
  deriving DecidableEq

/-- Model of `os.Open(path)`; `none` is an error.  The program opens for reading only
names a listing has just reported as regular files; for a device, socket or pipe the
model answers with an error. -/
def openFile (w : World) (p : Path) : Option Source :=
  if w.faults.openFails p then none
  else
    match resolve w DirRef.cwd p with
    | Resolved.file i => some (Source.file i)
    | Resolved.directory _ => some Source.directory
    | _ => none

/-- What `os.Create` returns on success: a regular file, or something that takes what
is written to it out of the tree (a device, a file above the working directory). -/
inductive Sink where
  | file (ino : Nat)
  | void
  deriving DecidableEq

/-- Model of `os.Create(path)`, that is `open` with `O_RDWR|O_CREATE|O_TRUNC`; `none` is
an error.  Symbolic links are followed: an existing regular file is truncated, whatever
name led to it, and at a free name a new file with a new inode is made. -/
def createFile (w : World) (p : Path) : Option (World × Sink) :=
  if w.faults.createFails p then none
  else
    match resolve w DirRef.cwd p with
    | Resolved.file i => some (setContent w i "", Sink.file i)
    | Resolved.absent d name =>
      match entriesOf w d with
      | none => none
      | some es =>
        some (setContent (setEntries w d (setEntry es name (Node.file (freshIno w))))
          (freshIno w) "", Sink.file (freshIno w))
    | Resolved.special => some (w, Sink.void)
    | Resolved.elsewhere => some (w, Sink.void)
    | _ => none

/-- Writing `data` to what `os.Create` returned. -/
def writeSink (w : World) (k : Sink) (data : String) : World :=
  match k with
  | Sink.file i => setContent w i data
  | Sink.void => w

/-- The function `copyFile(src, dst)`.  The second component is `err != nil`.  The
source is opened, the destination is created or truncated, and `io.Copy` then writes
what the source holds at that moment, or a beginning of it when it fails; reading a
directory fails at once. -/
def copyFile (src dst : Path) (w : World) : World × Bool :=
  match openFile w src with
  | none => (w, true)
  | some s =>
    match createFile w dst with
    | none => (w, true)
    | some (w1, k) =>
      match s with
      | Source.directory => (w1, true)
      | Source.file i =>
        match w.faults.copyFails src dst with
        | none => (writeSink w1 k (w1.content i), false)
        | some n => (writeSink w1 k (sliceTo (w1.content i) n), true)

/-- Model of `os.Remove(path)`: the last component is not followed; it is looked up in
the table of its directory, and a file, link or special file is unlinked, a directory
is removed exactly when it is empty.  The second component is `err != nil`. -/
def osRemove (p : Path) (w : World) : World × Bool :=
  if w.faults.removeFails p then (w, true)
  else
    match resolveParent w DirRef.cwd p with
    | none => (w, true)
    | some (d, name) =>
      match entriesOf w d with
      | none => (w, true)
      | some es =>
        match lookup es name with
        | none => (w, true)
        | some (Node.dir id) =>
          match lookup w.subs id with
          | some [] =>
            ({ setEntries w d (eraseEntry es name) with
                subs := eraseEntry (setEntries w d (eraseEntry es name)).subs id }, false)
          | _ => (w, true)
        | some _ => (setEntries w d (eraseEntry es name), false)

/-! ## Diagnostics -/

/-- The lines the program writes to the error stream. -/
inductive Msg where
  /-- Line `Usage: rof <command>` -/
  | usage
  /-- Line `mkdir failed: ...` -/
  | mkdirFailed
  /-- Line `opendir failed: ...` -/
  | opendirFailed
  /-- Line `Failed to snapshot file <srcName>: ...` -/
  | snapshotFailed (srcName : String)
  /-- Line `Failed to run command: ...` -/
  | failedToRun
  /-- Line `Command failed with result <exitCode>. Restoring files from snapshots...` -/
  | commandFailed (exitCode : Int)
  /-- Line `opendir snapshot failed: ...` -/
  | opendirSnapshotFailed
  /-- Line `Failed to restore file <origName>: ...` -/
  | restoreFailed (origName : String)
  /-- Line `Restored file: <origName>` -/
  | restored (origName : String)
  /-- Line `Snapshot directory not found: .rof_snapshots` -/
  | snapshotDirNotFound
  /-- Line `Failed to remove file: <filePath>` -/
  | removeFileFailed (name : String)
  /-- Line `Failed to remove directory: .rof_snapshots` -/
  | removeDirFailed
  /-- The line `log.Fatal` prints for the error of `restoreSnapshots`. -/
  | fatal (timestamp : String)
  deriving DecidableEq

/-! ## createSnapshots -/

/-- Outcome of `os.Mkdir(snapshotDir, 0755)`. -/
inductive MkdirResult where
  | created
  | exist
  | failed
  deriving DecidableEq

/-- Model of `os.Mkdir(snapshotDir, 0755)`: any entry of that name, a dangling link
included, makes it fail with "already exists". -/
def mkdirSnap (w : World) : World × MkdirResult :=
  match lookup w.top snapshotDir with
  | some _ => (w, MkdirResult.exist)
  | none =>
    if w.faults.mkdirFails then (w, MkdirResult.failed)
    else
      ({ w with
          top := setEntry w.top snapshotDir (Node.dir (freshDir w))
          subs := setEntry w.subs (freshDir w) [] }, MkdirResult.created)

/-- The expression `fmt.Sprintf("%s.%s.bak", srcName, timestamp)`. -/
def snapshotName (srcName timestamp : String) : String :=
  srcName ++ "." ++ timestamp ++ ".bak"

/-- The loop of `createSnapshots` over the entries of the working directory. -/
def snapshotLoop (timestamp : String) : List DirEntry → World → World × List Msg
  | [], w => (w, [])
  | entry :: rest, w =>
    if entry.isRegular then
      let srcName := entry.name
      let destName := snapshotName srcName timestamp
      let destPath := joinPath snapshotDir destName
      let r := copyFile [srcName] destPath w
      let out := snapshotLoop timestamp rest r.1
      (out.1, (if r.2 then [Msg.snapshotFailed srcName] else []) ++ out.2)
    else snapshotLoop timestamp rest w

/-- The function `createSnapshots(timestamp)`: the world afterwards and what it printed. -/
def createSnapshots (timestamp : String) (w : World) : World × List Msg :=
  let m := mkdirSnap w
  if m.2 = MkdirResult.failed then (m.1, [Msg.mkdirFailed])
  else
    match readDirCwd m.1 with
    | none => (m.1, [Msg.opendirFailed])
    | some entries => snapshotLoop timestamp entries m.1

/-! ## restoreSnapshots -/

/-- The error `restoreSnapshots` returns: `failed to find file for timestamp <timestamp>,
kindly restore it manually from the snapshot's dir <dir>`. -/
inductive RestoreError where
  | timestampMismatch (timestamp dir : String)
  deriving DecidableEq

/-- What the body of the loop of `restoreSnapshots` decides about one entry before it
touches a file. -/
inductive Parsed where
  /-- One of the `continue` statements. -/
  | skip
  /-- The `return fmt.Errorf(...)` statement. -/
  | mismatch
  /-- The entry is copied to `origName`. -/
  | orig (origName : String)
  deriving DecidableEq

/-- The tests and string computations of the loop body of `restoreSnapshots`, up to
`origName := base[:i]`. -/
def parseEntry (timestamp : String) (entry : DirEntry) : Parsed :=
  if !entry.isRegular then Parsed.skip
  else
    let fname := entry.name
    if !hasSuffix fname ".bak" then Parsed.skip
    else
      let base := sliceTo fname (len fname - 4)
      if !hasSuffix base timestamp then Parsed.mismatch
      else
        match lastIndexDot base.data with
        | none => Parsed.skip
        | some i => Parsed.orig (sliceTo base i)

/-- Result of `restoreSnapshots`. -/
structure Restored where
  world : World
  /-- The returned `error`; `none` is `nil`. -/
  err : Option RestoreError
  log : List Msg

/-- The loop of `restoreSnapshots` over the entries of the snapshot directory. -/
def restoreLoop (timestamp : String) : List DirEntry → World → Restored
  | [], w => ⟨w, none, []⟩
  | entry :: rest, w =>
    match parseEntry timestamp entry with
    | Parsed.skip => restoreLoop timestamp rest w
    | Parsed.mismatch => ⟨w, some (RestoreError.timestampMismatch timestamp snapshotDir), []⟩
    | Parsed.orig origName =>
      let snapPath := snapPath entry.name
      let r := copyFile snapPath [origName] w
      let out := restoreLoop timestamp rest r.1
      ⟨out.world, out.err,
        (if r.2 then Msg.restoreFailed origName else Msg.restored origName) :: out.log⟩

/-- The function `restoreSnapshots(timestamp)`. -/
def restoreSnapshots (timestamp : String) (w : World) : Restored :=
  match readDirSnap w with
  | none => ⟨w, none, [Msg.opendirSnapshotFailed]⟩
  | some entries => restoreLoop timestamp entries w

/-! ## cleanup -/

/-- The loop of `cleanup` over the entries of the snapshot directory. -/
def cleanupLoop : List DirEntry → World → World × List Msg
  | [], w => (w, [])
  | entry :: rest, w =>
    if entry.isRegular then
      let filePath := snapPath entry.name
      let r := osRemove filePath w
      let out := cleanupLoop rest r.1
      (out.1, (if r.2 then [Msg.removeFileFailed entry.name] else []) ++ out.2)
    else cleanupLoop rest w

/-- The function `cleanup()`. -/
def cleanup (w : World) : World × List Msg :=
  match readDirSnap w with
  | none => (w, [Msg.snapshotDirNotFound])
  | some entries =>
    let l := cleanupLoop entries w
    let r := osRemove [snapshotDir] l.1
    (r.1, l.2 ++ (if r.2 then [Msg.removeDirFailed] else []))

/-! ## main -/

/-- The three outcomes of `cmd.Run()`: `nil`, an `*exec.ExitError` with its
`ExitCode()`, or another error (the command could not be started). -/
inductive RunResult where
  | success
  | exitError (exitCode : Int)
  | startError
  deriving DecidableEq

/-- The command executor `exec.Command("sh", "-c", command).Run()`: an arbitrary
transformation of the world together with its outcome. -/
abbrev Shell := String → World → World × RunResult

/-- Go `strings.Join(args, " ")`. -/
def joinArgs : List String → String
  | [] => ""
  | [a] => a
  | a :: rest => a ++ " " ++ joinArgs rest

/-- How the process ends. -/
structure Exit where
  world : World
  /-- The argument of `os.Exit` (`log.Fatal` exits with status 1). -/
  status : Int
  log : List Msg
  /-- Whether `restoreSnapshots` was called. -/
  restoreCalled : Bool
  /-- Whether `cleanup` was called. -/
  cleanupCalled : Bool

/-- The function `main`.  `args` is `os.Args[1:]`, `timestamp` the value of
`getTimestamp()`, `sh` the command executor. -/
def main (args : List String) (timestamp : String) (sh : Shell) (w : World) : Exit :=
  if args.length + 1 < 2 then ⟨w, 1, [Msg.usage], false, false⟩
  else
    let command := joinArgs args
    let s := createSnapshots timestamp w
    let c := sh command s.1
    match c.2 with
    | RunResult.success =>
      let k := cleanup c.1
      ⟨k.1, 0, s.2 ++ k.2, false, true⟩
    | RunResult.exitError exitCode =>
      let r := restoreSnapshots timestamp c.1
      match r.err with
      | some _ =>
        ⟨r.world, 1, s.2 ++ Msg.commandFailed exitCode :: r.log ++ [Msg.fatal timestamp],
          true, false⟩
      | none =>
        let k := cleanup r.world
        ⟨k.1, exitCode, s.2 ++ Msg.commandFailed exitCode :: r.log ++ k.2, true, true⟩
    | RunResult.startError =>
      let r := restoreSnapshots timestamp c.1
      match r.err with
      | some _ =>
        ⟨r.world, 1, s.2 ++ Msg.failedToRun :: Msg.commandFailed 1 :: r.log
          ++ [Msg.fatal timestamp], true, false⟩
      | none =>
        let k := cleanup r.world
        ⟨k.1, 1, s.2 ++ Msg.failedToRun :: Msg.commandFailed 1 :: r.log ++ k.2, true, true⟩

/-! ## Notions used in the statements -/

/-- The format of `getTimestamp()`, `time.Now().Format("20060102150405")`: fourteen
decimal digits. -/
def isRunTag (tag : String) : Bool :=
  tag.data.length = 14 && tag.data.all Char.isDigit

/-- The entries on which `restoreSnapshots` returns its error: a regular file whose name
ends in `.bak` and, with that suffix removed, does not end with the timestamp. -/
def offending (timestamp : String) (entry : DirEntry) : Bool :=
  entry.isRegular && hasSuffix entry.name ".bak" &&
    !hasSuffix (sliceTo entry.name (len entry.name - 4)) timestamp

/-- The tag encoded in an entry name as the specification words it for the generation
guard: the text after the last `.` of the name with `.bak` removed (the whole of it
when there is no `.`). -/
def encodedTag (fname : String) : String :=
  let base := sliceTo fname (len fname - 4)
  match lastIndexDot base.data with
  | none => base
  | some i => String.mk (base.data.drop (i + 1))

/-- The messages that report a failed system call. -/
def Msg.isIOError : Msg → Bool
  | Msg.mkdirFailed => true
  | Msg.opendirFailed => true
  | Msg.snapshotFailed _ => true
  | Msg.opendirSnapshotFailed => true
  | Msg.restoreFailed _ => true
  | Msg.snapshotDirNotFound => true
  | Msg.removeFileFailed _ => true
  | Msg.removeDirFailed => true
  | _ => false

/-- A log without a report of a failed system call. -/
def noIOError (log : List Msg) : Bool :=
  log.all fun m => !m.isIOError

/-- The content of the top-level regular file `name`, if there is one. -/
def topFile (w : World) (name : String) : Option String :=
  match lookup w.top name with
  | some (Node.file i) => some (w.content i)
  | _ => none

/-- The content of the regular file `name` of the snapshot directory, when
`.rof_snapshots` is a directory and not a link to one. -/
def snapFile (w : World) (name : String) : Option String :=
  match lookup w.top snapshotDir with
  | some (Node.dir id) =>
    match lookup w.subs id with
    | some es =>
      match lookup es name with
      | some (Node.file k) => some (w.content k)
      | _ => none
    | none => none
  | _ => none

/-- Whether every top-level entry is a regular file or a directory. -/
def plainTop (w : World) : Bool :=
  w.top.all fun p =>
    match p.2 with
    | Node.file _ => true
    | Node.dir _ => true
    | _ => false

/-- Whether no two top-level names are hard links to one file. -/
def noHardLinks (w : World) : Bool :=
  decide (inosOf w.top).Nodup

/-- The inodes of the regular files in the directory `.rof_snapshots` leads to. -/
def snapInos (w : World) : List Nat :=
  match snapDir w with
  | none => []
  | some d =>
    match entriesOf w d with
    | none => []
    | some es => inosOf es

/-- Whether no top-level name is a hard link to a file of the snapshot directory. -/
def snapshotsApart (w : World) : Bool :=
  (inosOf w.top).all fun i => !(snapInos w).contains i

/-- Whether `.rof_snapshots` is absent, or is itself a directory whose entries are
regular files, no two of them hard links to one file and none of them a hard link to a
top-level file. -/
def snapshotsReady (w : World) : Bool :=
  match lookup w.top snapshotDir with
  | none => true
  | some (Node.dir id) =>
    match lookup w.subs id with
    | some S =>
      S.all (fun p => (DirEntry.ofNode p).isRegular) && decide (inosOf S).Nodup &&
        snapshotsApart w
    | none => false
  | some _ => false

/-- No top-level name holds a symbolic link (what `noTopLinks` decides). -/
def TopNoLinks (w : World) : Prop :=
  ∀ n t, lookup w.top n ≠ some (Node.link t)

/-- Every top-level name holds a regular file or a directory (what `plainTop` decides). -/
def TopPlain (w : World) : Prop :=
  ∀ n x, lookup w.top n = some x → (∃ i, x = Node.file i) ∨ ∃ id, x = Node.dir id

/-- Two top-level names with the same inode are the same name (what `noHardLinks`
decides). -/
def TopInjective (w : World) : Prop :=
  ∀ n m i, lookup w.top n = some (Node.file i) → lookup w.top m = some (Node.file i) → n = m

/-- The state `createSnapshots` works in when `.rof_snapshots` is a directory of its
own, `S` being its entries: they are regular files, none of them a hard link to a
top-level file, no two of them hard links to one file. -/
def SnapshotState (w : World) (id : Nat) (S : List (String × Node)) : Prop :=
  lookup w.top snapshotDir = some (Node.dir id) ∧ lookup w.subs id = some S ∧
  (∀ p ∈ S, ∃ k, p.2 = Node.file k) ∧
  (∀ n i, lookup w.top n = some (Node.file i) →
    ∀ e k, lookup S e = some (Node.file k) → i ≠ k) ∧
  (∀ n m k, lookup S n = some (Node.file k) → lookup S m = some (Node.file k) → n = m)

/-! ## Sample worlds -/

/-- The oracle without failures. -/
def noFaults : Faults :=
  ⟨false, false, false, fun _ => false, fun _ => false, fun _ _ => none, fun _ => false⟩

/-- The run tag used in the examples. -/
def sampleTag : String := "20240102030405"

/-- A working directory with `a.txt` (inode 1) containing `1` and `b.txt` (inode 2)
containing `2`. -/
def sampleWorld : World :=
  ⟨[("a.txt", Node.file 1), ("b.txt", Node.file 2)], [],
    fun i => if i = 1 then "1" else if i = 2 then "2" else "", noFaults⟩

/-- A command that overwrites `a.txt` with `3` and exits with status 1. -/
def sampleShell : Shell := fun _ w =>
  (setContent w 1 "3", RunResult.exitError 1)

/-- A command that overwrites `a.txt` with `3` and exits with status 0. -/
def overwriteShell : Shell := fun _ w =>
  (setContent w 1 "3", RunResult.success)

/-- A command that changes nothing and exits with status 0. -/
def trueShell : Shell := fun _ w => (w, RunResult.success)

/-- A command that cannot be started. -/
def missingShell : Shell := fun _ w => (w, RunResult.startError)

/-- A command that replaces `b.txt` by a symbolic link to `a.txt` (`ln -sf a.txt b.txt`)
and exits with status 1. -/
def linkShell : Shell := fun _ w =>
  ({ w with top := setEntry w.top "b.txt" (Node.link (Target.entry DirRef.cwd "a.txt")) },
    RunResult.exitError 1)

/-- The working directory after a failed command that changed `a.txt`, with a snapshot
entry whose name ends with the tag without being separated from it by a `.`. -/
def gluedTagWorld : World :=
  ⟨[(snapshotDir, Node.dir 10), ("a.txt", Node.file 1)],
    [(10, [("a.txt.x20240102030405.bak", Node.file 3)])],
    fun i => if i = 1 then "3" else if i = 3 then "1" else "", noFaults⟩

/-- The working directory after a failed command that changed `a.txt` and `c.txt`; in
the snapshot directory an entry of another run sorts between the two entries of this
run. -/
def staleWorld : World :=
  ⟨[(snapshotDir, Node.dir 10), ("a.txt", Node.file 1), ("c.txt", Node.file 2)],
    [(10, [("a.txt.20240102030405.bak", Node.file 3),
      ("b.txt.19990101000000.bak", Node.file 4),
      ("c.txt.20240102030405.bak", Node.file 5)])],
    fun i => if i = 1 then "3" else if i = 2 then "4" else if i = 3 then "1"
      else if i = 4 then "9" else if i = 5 then "2" else "", noFaults⟩

/-- A working directory whose snapshot directory holds a subdirectory. -/
def nestedWorld : World :=
  ⟨[(snapshotDir, Node.dir 10), ("a.txt", Node.file 1)], [(10, [("old", Node.dir 11)]), (11, [])],
    fun i => if i = 1 then "1" else "", noFaults⟩

/-- A working directory whose snapshot directory already holds, under the name the
snapshot of `a.txt` will get, a symbolic link to `b.txt`. -/
def preLinkedWorld : World :=
  ⟨[(snapshotDir, Node.dir 10), ("a.txt", Node.file 1), ("b.txt", Node.file 2)],
    [(10, [("a.txt.20240102030405.bak", Node.link (Target.entry DirRef.cwd "b.txt"))])],
    fun i => if i = 1 then "1" else if i = 2 then "2" else "", noFaults⟩

/-- A command that replaces `b.txt` by a hard link to `a.txt` (`ln -f a.txt b.txt`) and
exits with status 1; in the sample directory `a.txt` is inode 1. -/
def hardLinkShell : Shell := fun _ w =>
  ({ w with top := setEntry w.top "b.txt" (Node.file 1) }, RunResult.exitError 1)

/-- A command that replaces `a.txt` by a hard link to the snapshot of `b.txt` and exits
with status 1; in a run on the sample directory that snapshot is inode 4. -/
def snapLinkShell : Shell := fun _ w =>
  ({ w with top := setEntry w.top "a.txt" (Node.file 4) }, RunResult.exitError 1)

/-- A command that replaces `a.txt` by a named pipe (`rm a.txt; mkfifo a.txt`) and exits
with status 1. -/
def pipeShell : Shell := fun _ w =>
  ({ w with top := setEntry w.top "a.txt" Node.other }, RunResult.exitError 1)

/-- A working directory whose snapshot directory already holds, under the name the
snapshot of `a.txt` will get, a hard link to `b.txt`. -/
def preHardWorld : World :=
  ⟨[(snapshotDir, Node.dir 10), ("a.txt", Node.file 1), ("b.txt", Node.file 2)],
    [(10, [("a.txt.20240102030405.bak", Node.file 2)])],
    fun i => if i = 1 then "1" else if i = 2 then "2" else "", noFaults⟩

/-- A working directory whose snapshot directory already holds, under the names the
snapshots of `a.txt` and `b.txt` will get, two hard links to one file. -/
def preTwinWorld : World :=
  ⟨[(snapshotDir, Node.dir 10), ("a.txt", Node.file 1), ("b.txt", Node.file 2)],
    [(10, [("a.txt.20240102030405.bak", Node.file 7),
      ("b.txt.20240102030405.bak", Node.file 7)])],
    fun i => if i = 1 then "1" else if i = 2 then "2" else "", noFaults⟩

/-- A working directory whose snapshot directory already holds, under the name the
snapshot of `a.txt` will get, a named pipe. -/
def prePipeWorld : World :=
  ⟨[(snapshotDir, Node.dir 10), ("a.txt", Node.file 1), ("b.txt", Node.file 2)],
    [(10, [("a.txt.20240102030405.bak", Node.other)])],
    fun i => if i = 1 then "1" else if i = 2 then "2" else "", noFaults⟩

/-- A working directory whose snapshot directory holds a snapshot an earlier run left
behind. -/
def leftoverWorld : World :=
  ⟨[(snapshotDir, Node.dir 10), ("a.txt", Node.file 1), ("b.txt", Node.file 2)],
    [(10, [("a.txt.19990101000000.bak", Node.file 3)])],
    fun i => if i = 1 then "1" else if i = 2 then "2" else if i = 3 then "9" else "",
    noFaults⟩

/-! # Theorems -/

/-! ## Strings -/

theorem data_bak : (".bak" : String).data = ['.', 'b', 'a', 'k'] := rfl

theorem data_dot : ("." : String).data = ['.'] := rfl

theorem hasSuffix_iff (s t : String) : hasSuffix s t = true ↔ t.data <:+ s.data := by
  simp [hasSuffix]

theorem lastIndexDot_none (ys : List Char) (h : '.' ∉ ys) : lastIndexDot ys = none := by
  induction ys with
  | nil => rfl
  | cons y ys ih =>
    have hy : y ≠ '.' := fun e => h (by simp [e])
    have hys : '.' ∉ ys := fun m => h (List.mem_cons_of_mem _ m)
    simp [lastIndexDot, ih hys, hy]

theorem lastIndexDot_append (xs ys : List Char) (h : '.' ∉ ys) :
    lastIndexDot (xs ++ '.' :: ys) = some xs.length := by
  induction xs with
  | nil => simp [lastIndexDot, lastIndexDot_none ys h]
  | cons x xs ih => simp [lastIndexDot, ih]

/-- The base of a snapshot name (suffix removed) and what the loop body derives from it. -/
theorem parseEntry_snapshotName (f tag : String) (h : '.' ∉ tag.data) :
    parseEntry tag ⟨f ++ "." ++ tag ++ ".bak", true⟩ = Parsed.orig f := by
  have hbase : sliceTo (f ++ "." ++ tag ++ ".bak") (len (f ++ "." ++ tag ++ ".bak") - 4)
      = f ++ "." ++ tag := by
    apply String.ext
    have hd : (f ++ "." ++ tag ++ ".bak").data
        = (f ++ "." ++ tag).data ++ ['.', 'b', 'a', 'k'] := by
      simp [data_bak]
    simp only [sliceTo, len, hd, List.length_append, List.length_cons, List.length_nil]
    exact List.take_left' (by omega)
  have hsuf : hasSuffix (f ++ "." ++ tag ++ ".bak") ".bak" = true := by
    rw [hasSuffix_iff]
    exact ⟨(f ++ "." ++ tag).data, by simp⟩
  have hsuf2 : hasSuffix (f ++ "." ++ tag) tag = true := by
    rw [hasSuffix_iff]
    exact ⟨(f ++ ".").data, by simp⟩
  have hidx : lastIndexDot (f ++ "." ++ tag).data = some f.data.length := by
    have := lastIndexDot_append f.data tag.data h
    simpa [data_dot] using this
  have hcut : sliceTo (f ++ "." ++ tag) f.data.length = f := by
    apply String.ext
    simp [sliceTo]
  simp only [parseEntry, hsuf, hbase, hsuf2, hidx, hcut, Bool.not_true, Bool.false_eq_true,
    if_false]

theorem snapshotName_inj (f g t : String) (h : snapshotName f t = snapshotName g t) : f = g := by
  have h1 := congrArg String.data h
  simp only [snapshotName, String.data_append] at h1
  apply String.ext
  have h2 := List.append_cancel_right h1
  have h3 := List.append_cancel_right h2
  exact List.append_cancel_right h3

theorem isRunTag_no_dot (tag : String) (h : isRunTag tag = true) : '.' ∉ tag.data := by
  intro hmem
  simp only [isRunTag, Bool.and_eq_true, List.all_eq_true] at h
  have := h.2 '.' hmem
  revert this
  decide

theorem isRunTag_no_slash (tag : String) (h : isRunTag tag = true) : '/' ∉ tag.data := by
  intro hmem
  simp only [isRunTag, Bool.and_eq_true, List.all_eq_true] at h
  have := h.2 '/' hmem
  revert this
  decide

/-! ## Paths -/

theorem splitSlash_ne_nil (cs : List Char) : splitSlash cs ≠ [] := by
  cases cs with
  | nil => simp [splitSlash]
  | cons c cs =>
    simp only [splitSlash]
    split
    · simp
    · split <;> simp

theorem splitSlash_of_not_mem (ys : List Char) (h : '/' ∉ ys) : splitSlash ys = [ys] := by
  induction ys with
  | nil => rfl
  | cons y ys ih =>
    have hy : y ≠ '/' := fun e => h (by simp [e])
    have hys : '/' ∉ ys := fun m => h (List.mem_cons_of_mem _ m)
    simp [splitSlash, ih hys, hy]

theorem splitSlash_append (xs ys : List Char) (h : '/' ∉ xs) :
    splitSlash (xs ++ '/' :: ys) = xs :: splitSlash ys := by
  induction xs with
  | nil =>
    simp only [List.nil_append, splitSlash]
    cases hs : splitSlash ys with
    | nil => exact absurd hs (splitSlash_ne_nil ys)
    | cons z zs => simp
  | cons x xs ih =>
    have hx : x ≠ '/' := fun e => h (by simp [e])
    have hxs : '/' ∉ xs := fun m => h (List.mem_cons_of_mem _ m)
    simp [splitSlash, ih hxs, hx]

theorem isSpecialName_false_of_length (n : String) (h : 2 < n.data.length) :
    isSpecialName n = false := by
  have h1 : n ≠ "" := by
    intro e
    rw [e] at h
    simp at h
  have h2 : n ≠ "." := by
    intro e
    rw [e] at h
    simp at h
  have h3 : n ≠ ".." := by
    intro e
    rw [e] at h
    simp at h
  simp [isSpecialName, h1, h2, h3]

/-- Joining the snapshot directory and a name without separator that is neither empty,
`.` nor `..` gives the two components. -/
theorem joinPath_snapshotDir (name : String) (h : '/' ∉ name.data)
    (hs : isSpecialName name = false) : joinPath snapshotDir name = [snapshotDir, name] := by
  have hsplit : splitSlash (snapshotDir ++ "/" ++ name).data = [snapshotDir.data, name.data] := by
    have : (snapshotDir ++ "/" ++ name).data = snapshotDir.data ++ '/' :: name.data := by
      simp [String.data_append]
    rw [this, splitSlash_append _ _ (by decide), splitSlash_of_not_mem _ h]
  simp only [isSpecialName, Bool.or_eq_false_iff, decide_eq_false_iff_not] at hs
  have e1 : (String.mk snapshotDir.data) = snapshotDir := rfl
  have e2 : (String.mk name.data) = name := rfl
  simp only [joinPath, hsplit, List.map, clean, List.foldl, e1, e2]
  have c1 : cleanStep [] snapshotDir = [snapshotDir] := by decide
  rw [c1]
  have hnd : ¬ (name = "" ∨ name = ".") := by
    intro h0
    rcases h0 with h0 | h0
    · exact hs.1.1 h0
    · exact hs.1.2 h0
  simp [cleanStep, hnd, hs.2]

theorem snapshotName_no_slash (f t : String) (hf : '/' ∉ f.data) (ht : '/' ∉ t.data) :
    '/' ∉ (snapshotName f t).data := by
  simp only [snapshotName, String.data_append, List.mem_append, not_or]
  refine ⟨⟨⟨hf, by decide⟩, ht⟩, by decide⟩

theorem snapshotName_not_special (f t : String) : isSpecialName (snapshotName f t) = false := by
  apply isSpecialName_false_of_length
  simp only [snapshotName, String.data_append, List.length_append, data_bak]
  simp

theorem joinPath_snapshotName (f t : String) (hf : '/' ∉ f.data) (ht : '/' ∉ t.data) :
    joinPath snapshotDir (snapshotName f t) = [snapshotDir, snapshotName f t] :=
  joinPath_snapshotDir _ (snapshotName_no_slash f t hf ht) (snapshotName_not_special f t)

theorem snapshotDir_not_special : isSpecialName snapshotDir = false := by decide

/-! ## Association lists -/

theorem lookup_setEntry {κ α : Type} [DecidableEq κ] (es : List (κ × α)) (n m : κ) (v : α) :
    lookup (setEntry es n v) m = if n = m then some v else lookup es m := by
  induction es with
  | nil => simp [setEntry, lookup]
  | cons e es ih =>
    obtain ⟨k, x⟩ := e
    by_cases hk : k = n
    · subst hk
      by_cases hm : k = m <;> simp [setEntry, lookup, hm]
    · by_cases hm : k = m
      · subst hm
        have : ¬ n = k := fun e => hk e.symm
        simp [setEntry, lookup, hk, this]
      · simp [setEntry, lookup, hk, hm, ih]

theorem lookup_setEntry_self {κ α : Type} [DecidableEq κ] (es : List (κ × α)) (n : κ) (v : α) :
    lookup (setEntry es n v) n = some v := by
  simp [lookup_setEntry]

theorem lookup_setEntry_ne {κ α : Type} [DecidableEq κ] (es : List (κ × α)) (n m : κ) (v : α)
    (h : m ≠ n) : lookup (setEntry es n v) m = lookup es m := by
  have : ¬ n = m := fun e => h e.symm
  simp [lookup_setEntry, this]

theorem lookup_eraseEntry {κ α : Type} [DecidableEq κ] (es : List (κ × α)) (n m : κ) :
    lookup (eraseEntry es n) m = if m = n then none else lookup es m := by
  induction es with
  | nil => simp [eraseEntry, lookup]
  | cons e es ih =>
    obtain ⟨k, x⟩ := e
    simp only [eraseEntry] at ih
    by_cases hk : k = n
    · subst hk
      by_cases hm : m = k
      · subst hm
        simpa [eraseEntry, lookup] using ih
      · have : ¬ k = m := fun e => hm e.symm
        simpa [eraseEntry, lookup, hm, this] using ih
    · by_cases hm : k = m
      · subst hm
        simp [eraseEntry, lookup, hk]
      · simp only [eraseEntry, List.filter, hk, ne_eq, not_false_eq_true, decide_True, lookup,
          hm, if_false]
        exact ih

theorem mem_of_lookup {κ α : Type} [DecidableEq κ] (es : List (κ × α)) (n : κ) (x : α)
    (h : lookup es n = some x) : (n, x) ∈ es := by
  induction es with
  | nil => simp [lookup] at h
  | cons e es ih =>
    obtain ⟨k, y⟩ := e
    by_cases hk : k = n
    · subst hk
      simp only [lookup, if_true, Option.some.injEq] at h
      subst h
      simp
    · simp only [lookup, hk, if_false] at h
      exact List.mem_cons_of_mem _ (ih h)

theorem setEntry_setEntry {κ α : Type} [DecidableEq κ] (es : List (κ × α)) (n : κ) (a b : α) :
    setEntry (setEntry es n a) n b = setEntry es n b := by
  induction es with
  | nil => simp [setEntry]
  | cons e es ih =>
    obtain ⟨k, x⟩ := e
    by_cases hk : k = n
    · simp [setEntry, hk]
    · simp [setEntry, hk, ih]

theorem setEntry_of_lookup_none {κ α : Type} [DecidableEq κ] (es : List (κ × α)) (n : κ)
    (v : α) (h : lookup es n = none) : setEntry es n v = es ++ [(n, v)] := by
  induction es with
  | nil => rfl
  | cons e es ih =>
    obtain ⟨k, x⟩ := e
    by_cases hk : k = n
    · simp [lookup, hk] at h
    · simp only [lookup, hk, if_false] at h
      simp [setEntry, hk, ih h]

theorem mem_setEntry {κ α : Type} [DecidableEq κ] (es : List (κ × α)) (n : κ) (v : α)
    (p : κ × α) (h : p ∈ setEntry es n v) : p ∈ es ∨ p = (n, v) := by
  induction es with
  | nil =>
    simp only [setEntry, List.mem_singleton] at h
    exact Or.inr h
  | cons e es ih =>
    obtain ⟨k, x⟩ := e
    by_cases hk : k = n
    · simp only [setEntry, hk, if_true, List.mem_cons] at h
      rcases h with h | h
      · exact Or.inr h
      · exact Or.inl (List.mem_cons_of_mem _ h)
    · simp only [setEntry, hk, if_false, List.mem_cons] at h
      rcases h with h | h
      · exact Or.inl (by rw [h]; exact List.mem_cons_self _ _)
      · rcases ih h with h0 | h0
        · exact Or.inl (List.mem_cons_of_mem _ h0)
        · exact Or.inr h0

theorem eraseEntry_setEntry {κ α : Type} [DecidableEq κ] (es : List (κ × α)) (n : κ) (v : α) :
    eraseEntry (setEntry es n v) n = eraseEntry es n := by
  induction es with
  | nil => simp [setEntry, eraseEntry]
  | cons e es ih =>
    obtain ⟨k, x⟩ := e
    by_cases hk : k = n
    · simp [setEntry, eraseEntry, hk]
    · simp only [eraseEntry] at ih
      simpa [setEntry, eraseEntry, hk] using ih

theorem mem_eraseEntry {κ α : Type} [DecidableEq κ] (es : List (κ × α)) (n : κ) (p : κ × α) :
    p ∈ eraseEntry es n ↔ p ∈ es ∧ p.1 ≠ n := by
  simp [eraseEntry]

theorem lookup_isSome_of_mem {κ α : Type} [DecidableEq κ] (es : List (κ × α)) (p : κ × α)
    (h : p ∈ es) : ∃ y, lookup es p.1 = some y := by
  induction es with
  | nil => cases h
  | cons e es ih =>
    obtain ⟨k, x⟩ := e
    by_cases hk : k = p.1
    · exact ⟨x, by simp [lookup, hk]⟩
    · rcases List.mem_cons.1 h with h0 | h0
      · rw [h0] at hk
        exact absurd rfl hk
      · obtain ⟨y, hy⟩ := ih h0
        exact ⟨y, by simp [lookup, hk, hy]⟩

/-! ## Inodes -/

theorem le_foldr_max (l : List Nat) (i : Nat) (h : i ∈ l) : i ≤ l.foldr max 0 := by
  induction l with
  | nil => cases h
  | cons x xs ih =>
    simp only [List.foldr]
    rcases List.mem_cons.1 h with h0 | h0
    · rw [h0]
      exact le_max_left _ _
    · exact le_trans (ih h0) (le_max_right _ _)

theorem mem_inosOf (es : List (String × Node)) (n : String) (i : Nat)
    (h : (n, Node.file i) ∈ es) : i ∈ inosOf es := by
  simp only [inosOf, List.mem_filterMap]
  exact ⟨(n, Node.file i), h, rfl⟩

theorem mem_inosOf_iff (es : List (String × Node)) (i : Nat) :
    i ∈ inosOf es ↔ ∃ n, (n, Node.file i) ∈ es := by
  constructor
  · intro h
    simp only [inosOf, List.mem_filterMap] at h
    obtain ⟨p, hp, hi⟩ := h
    obtain ⟨n, x⟩ := p
    cases x with
    | file j =>
      simp only [Option.some.injEq] at hi
      subst hi
      exact ⟨n, hp⟩
    | dir _ => cases hi
    | link _ => cases hi
    | other => cases hi
  · rintro ⟨n, h⟩
    exact mem_inosOf es n i h

theorem mem_allInos_top (w : World) (i : Nat) (h : i ∈ inosOf w.top) : i ∈ allInos w :=
  List.mem_append_left _ h

theorem mem_allInos_sub (w : World) (id : Nat) (es : List (String × Node)) (i : Nat)
    (hrow : lookup w.subs id = some es) (h : i ∈ inosOf es) : i ∈ allInos w := by
  apply List.mem_append_right
  simp only [List.mem_flatten, List.mem_map]
  exact ⟨inosOf es, ⟨(id, es), mem_of_lookup _ _ _ hrow, rfl⟩, h⟩

theorem mem_allInos_of_entries (w : World) (d : DirRef) (es : List (String × Node)) (i : Nat)
    (hes : entriesOf w d = some es) (h : i ∈ inosOf es) : i ∈ allInos w := by
  cases d with
  | cwd =>
    simp only [entriesOf, Option.some.injEq] at hes
    subst hes
    exact mem_allInos_top w i h
  | sub id => exact mem_allInos_sub w id es i hes h

theorem lt_freshIno (w : World) (i : Nat) (h : i ∈ allInos w) : i < freshIno w :=
  Nat.lt_succ_of_le (le_foldr_max _ i h)

theorem lookup_none_of_not_mem {κ α : Type} [DecidableEq κ] (es : List (κ × α)) (n : κ)
    (h : n ∉ es.map Prod.fst) : lookup es n = none := by
  induction es with
  | nil => rfl
  | cons e es ih =>
    obtain ⟨k, x⟩ := e
    simp only [List.map_cons, List.mem_cons, not_or] at h
    have : ¬ k = n := fun e => h.1 e.symm
    simp [lookup, this, ih h.2]

theorem lookup_freshDir (w : World) : lookup w.subs (freshDir w) = none := by
  apply lookup_none_of_not_mem
  intro h
  have h1 : freshDir w ≤ freshDir w - 1 := by
    have := le_foldr_max
      (w.subs.map Prod.fst ++ dirIdsOf w.top ++ (w.subs.map fun r => dirIdsOf r.2).flatten)
      (freshDir w) (List.mem_append_left _ (List.mem_append_left _ h))
    simp [freshDir] at this
  have h2 : 0 < freshDir w := Nat.succ_pos _
  omega

/-! ## Following paths -/

theorem follow_of_look (w : World) (fuel : Nat) (d : DirRef) (n : String) (r : Resolved)
    (h : look w d n = Look.done r) : follow w fuel d n = r := by
  cases fuel with
  | zero => simp [follow, h]
  | succ fuel => simp [follow, h]

theorem follow_special (w : World) (fuel : Nat) (d : DirRef) (n : String)
    (h : isSpecialName n = true) :
    follow w fuel d n = Resolved.failure ∨ ∃ x, follow w fuel d n = Resolved.directory x := by
  by_cases h1 : n = ""
  · left
    exact follow_of_look w fuel d n _ (by simp [look, h1])
  · by_cases h2 : n = "."
    · right
      exact ⟨some d, follow_of_look w fuel d n _ (by simp [look, h2])⟩
    · by_cases h3 : n = ".."
      · right
        exact ⟨none, follow_of_look w fuel d n _ (by simp [look, h3])⟩
      · simp [isSpecialName, h1, h2, h3] at h

theorem follow_absent_of (w : World) (fuel : Nat) (d : DirRef) (n : String)
    (es : List (String × Node)) (hn : isSpecialName n = false) (hes : entriesOf w d = some es)
    (h : lookup es n = none) : follow w fuel d n = Resolved.absent d n := by
  simp only [isSpecialName, Bool.or_eq_false_iff, decide_eq_false_iff_not] at hn
  exact follow_of_look w fuel d n _ (by simp [look, hn.1.1, hn.1.2, hn.2, hes, h])

theorem follow_file_of (w : World) (fuel : Nat) (d : DirRef) (n : String)
    (es : List (String × Node)) (i : Nat) (hn : isSpecialName n = false)
    (hes : entriesOf w d = some es) (h : lookup es n = some (Node.file i)) :
    follow w fuel d n = Resolved.file i := by
  simp only [isSpecialName, Bool.or_eq_false_iff, decide_eq_false_iff_not] at hn
  exact follow_of_look w fuel d n _ (by simp [look, hn.1.1, hn.1.2, hn.2, hes, h])

theorem follow_dir_of (w : World) (fuel : Nat) (d : DirRef) (n : String)
    (es : List (String × Node)) (id : Nat) (hn : isSpecialName n = false)
    (hes : entriesOf w d = some es) (h : lookup es n = some (Node.dir id)) :
    follow w fuel d n = Resolved.directory (some (DirRef.sub id)) := by
  simp only [isSpecialName, Bool.or_eq_false_iff, decide_eq_false_iff_not] at hn
  exact follow_of_look w fuel d n _ (by simp [look, hn.1.1, hn.1.2, hn.2, hes, h])

theorem follow_other_of (w : World) (fuel : Nat) (d : DirRef) (n : String)
    (es : List (String × Node)) (hn : isSpecialName n = false)
    (hes : entriesOf w d = some es) (h : lookup es n = some Node.other) :
    follow w fuel d n = Resolved.special := by
  simp only [isSpecialName, Bool.or_eq_false_iff, decide_eq_false_iff_not] at hn
  exact follow_of_look w fuel d n _ (by simp [look, hn.1.1, hn.1.2, hn.2, hes, h])

/-- What following a top-level name leads to when the entry is not a symbolic link. -/
theorem follow_cwd_cases (w : World) (fuel : Nat) (n : String)
    (hl : ∀ t, lookup w.top n ≠ some (Node.link t)) :
    follow w fuel DirRef.cwd n = Resolved.failure ∨
    (∃ x, follow w fuel DirRef.cwd n = Resolved.directory x) ∨
    (lookup w.top n = some Node.other ∧ follow w fuel DirRef.cwd n = Resolved.special) ∨
    (isSpecialName n = false ∧ lookup w.top n = none ∧
      follow w fuel DirRef.cwd n = Resolved.absent DirRef.cwd n) ∨
    (∃ i, isSpecialName n = false ∧ lookup w.top n = some (Node.file i) ∧
      follow w fuel DirRef.cwd n = Resolved.file i) := by
  cases hn : isSpecialName n with
  | true =>
    rcases follow_special w fuel DirRef.cwd n hn with h | h
    · exact Or.inl h
    · exact Or.inr (Or.inl h)
  | false =>
    cases hlk : lookup w.top n with
    | none => exact Or.inr (Or.inr (Or.inr (Or.inl
        ⟨rfl, rfl, follow_absent_of w fuel _ n w.top hn rfl hlk⟩)))
    | some x =>
      cases x with
      | file i => exact Or.inr (Or.inr (Or.inr (Or.inr
          ⟨i, rfl, rfl, follow_file_of w fuel _ n w.top i hn rfl hlk⟩)))
      | dir id => exact Or.inr (Or.inl ⟨_, follow_dir_of w fuel _ n w.top id hn rfl hlk⟩)
      | link t => exact absurd hlk (hl t)
      | other => exact Or.inr (Or.inr (Or.inl
          ⟨rfl, follow_other_of w fuel _ n w.top hn rfl hlk⟩))

theorem look_file (w : World) (d : DirRef) (n : String) (i : Nat)
    (h : look w d n = Look.done (Resolved.file i)) :
    ∃ es, entriesOf w d = some es ∧ lookup es n = some (Node.file i) := by
  unfold look at h
  split at h
  · cases h
  · split at h
    · cases h
    · split at h
      · cases h
      · split at h
        · cases h
        · rename_i es hes
          split at h
          all_goals first
            | (simp at h; done)
            | (rename_i j hj
               simp only [Look.done.injEq, Resolved.file.injEq] at h
               subst h
               exact ⟨es, hes, hj⟩)

theorem look_absent (w : World) (d : DirRef) (n : String) (d' : DirRef) (n' : String)
    (h : look w d n = Look.done (Resolved.absent d' n')) :
    ∃ es, entriesOf w d' = some es ∧ lookup es n' = none := by
  unfold look at h
  split at h
  · cases h
  · split at h
    · cases h
    · split at h
      · cases h
      · split at h
        · cases h
        · rename_i es hes
          split at h
          all_goals first
            | (simp at h; done)
            | (rename_i hj
               simp only [Look.done.injEq, Resolved.absent.injEq] at h
               obtain ⟨h1, h2⟩ := h
               subst h1 h2
               exact ⟨es, hes, hj⟩)

theorem follow_file_mem (w : World) (fuel : Nat) (d : DirRef) (n : String) (i : Nat)
    (h : follow w fuel d n = Resolved.file i) : i ∈ allInos w := by
  induction fuel generalizing d n with
  | zero =>
    simp only [follow] at h
    split at h
    · rename_i r hr
      subst h
      obtain ⟨es, hes, hl⟩ := look_file w d n i hr
      exact mem_allInos_of_entries w d es _ hes (mem_inosOf es n _ (mem_of_lookup _ _ _ hl))
    · cases h
  | succ fuel ih =>
    simp only [follow] at h
    split at h
    · rename_i r hr
      subst h
      obtain ⟨es, hes, hl⟩ := look_file w d n i hr
      exact mem_allInos_of_entries w d es _ hes (mem_inosOf es n _ (mem_of_lookup _ _ _ hl))
    · cases h
    · exact ih _ _ h

theorem follow_absent (w : World) (fuel : Nat) (d : DirRef) (n : String) (d' : DirRef)
    (n' : String) (h : follow w fuel d n = Resolved.absent d' n') :
    ∃ es, entriesOf w d' = some es ∧ lookup es n' = none := by
  induction fuel generalizing d n with
  | zero =>
    simp only [follow] at h
    split at h
    · rename_i r hr
      subst h
      exact look_absent w d n d' n' hr
    · cases h
  | succ fuel ih =>
    simp only [follow] at h
    split at h
    · rename_i r hr
      subst h
      exact look_absent w d n d' n' hr
    · cases h
    · exact ih _ _ h

theorem resolve_file_mem (w : World) (d : DirRef) (p : Path) (i : Nat)
    (h : resolve w d p = Resolved.file i) : i ∈ allInos w := by
  induction p generalizing d with
  | nil => cases h
  | cons c rest ih =>
    cases rest with
    | nil => exact follow_file_mem w _ d c i h
    | cons c' rest' =>
      simp only [resolve] at h
      split at h
      · exact ih _ h
      · cases h
      · cases h

theorem resolve_absent (w : World) (d : DirRef) (p : Path) (d' : DirRef) (n' : String)
    (h : resolve w d p = Resolved.absent d' n') :
    ∃ es, entriesOf w d' = some es ∧ lookup es n' = none := by
  induction p generalizing d with
  | nil => cases h
  | cons c rest ih =>
    cases rest with
    | nil => exact follow_absent w _ d c d' n' h
    | cons c' rest' =>
      simp only [resolve] at h
      split at h
      · exact ih _ h
      · cases h
      · cases h

/-! ## copyFile -/

theorem setContent_setContent (w : World) (i : Nat) (a b : String) :
    setContent (setContent w i a) i b = setContent w i b := by
  simp only [setContent, World.mk.injEq, and_true, true_and]
  funext j
  by_cases h : j = i <;> simp [h]

theorem openFile_file (w : World) (p : Path) (s : Nat)
    (h : openFile w p = some (Source.file s)) :
    resolve w DirRef.cwd p = Resolved.file s ∧ w.faults.openFails p = false := by
  unfold openFile at h
  by_cases hf : w.faults.openFails p = true
  · simp [hf] at h
  · simp only [hf, Bool.false_eq_true, if_false] at h
    refine ⟨?_, by simpa using hf⟩
    split at h
    · rename_i i hi
      simp only [Option.some.injEq, Source.file.injEq] at h
      rw [hi, h]
    · cases h
    · cases h

/-- The three ways `os.Create` succeeds. -/
theorem createFile_some (w : World) (p : Path) (w1 : World) (k : Sink)
    (h : createFile w p = some (w1, k)) :
    (∃ i, resolve w DirRef.cwd p = Resolved.file i ∧ w1 = setContent w i "" ∧
      k = Sink.file i) ∨
    (∃ d n es, resolve w DirRef.cwd p = Resolved.absent d n ∧ entriesOf w d = some es ∧
      lookup es n = none ∧
      w1 = setContent (setEntries w d (setEntry es n (Node.file (freshIno w)))) (freshIno w) "" ∧
      k = Sink.file (freshIno w)) ∨
    ((resolve w DirRef.cwd p = Resolved.special ∨ resolve w DirRef.cwd p = Resolved.elsewhere) ∧
      w1 = w ∧ k = Sink.void) := by
  unfold createFile at h
  by_cases hf : w.faults.createFails p = true
  · simp [hf] at h
  · simp only [hf, Bool.false_eq_true, if_false] at h
    split at h
    · rename_i i hi
      simp only [Option.some.injEq, Prod.mk.injEq] at h
      exact Or.inl ⟨i, hi, h.1.symm, h.2.symm⟩
    · rename_i d n hd
      obtain ⟨es, hes, hl⟩ := resolve_absent w _ p d n hd
      simp only [hes, Option.some.injEq, Prod.mk.injEq] at h
      exact Or.inr (Or.inl ⟨d, n, es, hd, hes, hl, h.1.symm, h.2.symm⟩)
    · rename_i hs
      simp only [Option.some.injEq, Prod.mk.injEq] at h
      exact Or.inr (Or.inr ⟨Or.inl hs, h.1.symm, h.2.symm⟩)
    · rename_i hs
      simp only [Option.some.injEq, Prod.mk.injEq] at h
      exact Or.inr (Or.inr ⟨Or.inr hs, h.1.symm, h.2.symm⟩)
    · cases h

theorem createFile_faults (w : World) (p : Path) (w1 : World) (k : Sink)
    (h : createFile w p = some (w1, k)) : w1.faults = w.faults := by
  rcases createFile_some w p w1 k h with ⟨i, _, h1, _⟩ | ⟨d, n, es, _, _, _, h1, _⟩ | ⟨_, h1, _⟩
  · rw [h1]
    rfl
  · rw [h1]
    cases d <;> rfl
  · rw [h1]

/-- What `copyFile` does to the world: nothing, or it gives new content to the regular
file its destination leads to, or it makes a new regular file at the free name its
destination leads to.  When it returns no error the content is that of the source,
unless the source is the file just truncated. -/
theorem copyFile_effect (src dst : Path) (w : World) :
    ((copyFile src dst w).1 = w ∧
      ((copyFile src dst w).2 = false →
        resolve w DirRef.cwd dst = Resolved.special ∨
          resolve w DirRef.cwd dst = Resolved.elsewhere)) ∨
    (∃ i data, resolve w DirRef.cwd dst = Resolved.file i ∧
      (copyFile src dst w).1 = setContent w i data ∧
      ((copyFile src dst w).2 = false →
        ∃ s, resolve w DirRef.cwd src = Resolved.file s ∧
          data = if s = i then "" else w.content s)) ∨
    (∃ d n es data, resolve w DirRef.cwd dst = Resolved.absent d n ∧
      entriesOf w d = some es ∧ lookup es n = none ∧
      (copyFile src dst w).1
        = setContent (setEntries w d (setEntry es n (Node.file (freshIno w))))
            (freshIno w) data ∧
      ((copyFile src dst w).2 = false →
        ∃ s, resolve w DirRef.cwd src = Resolved.file s ∧ data = w.content s)) := by
  unfold copyFile
  cases ho : openFile w src with
  | none => exact Or.inl ⟨rfl, fun h => by cases h⟩
  | some s =>
    cases hc : createFile w dst with
    | none => exact Or.inl ⟨rfl, fun h => by cases h⟩
    | some wk =>
      obtain ⟨w1, k⟩ := wk
      rcases createFile_some w dst w1 k hc with
        ⟨i, hr, h1, hk⟩ | ⟨d, n, es, hr, hes, hl, h1, hk⟩ | ⟨hr, h1, hk⟩
      · -- an existing file is truncated
        right
        left
        subst h1 hk
        cases s with
        | directory => exact ⟨i, "", hr, rfl, fun h => by cases h⟩
        | file s0 =>
          obtain ⟨hsrc, _⟩ := openFile_file w src s0 ho
          have hdata : (setContent w i "").content s0 = if s0 = i then "" else w.content s0 := rfl
          cases hcp : w.faults.copyFails src dst with
          | none =>
            refine ⟨i, (setContent w i "").content s0, hr, ?_, fun _ => ⟨s0, hsrc, hdata⟩⟩
            simp only [writeSink]
            exact setContent_setContent _ _ _ _
          | some m =>
            refine ⟨i, sliceTo ((setContent w i "").content s0) m, hr, ?_, fun h => by cases h⟩
            simp only [writeSink]
            exact setContent_setContent _ _ _ _
      · -- a new file is made
        right
        right
        subst h1 hk
        cases s with
        | directory => exact ⟨d, n, es, "", hr, hes, hl, rfl, fun h => by cases h⟩
        | file s0 =>
          obtain ⟨hsrc, _⟩ := openFile_file w src s0 ho
          have hne : s0 ≠ freshIno w :=
            Nat.ne_of_lt (lt_freshIno w s0 (resolve_file_mem w _ src s0 hsrc))
          have hdata : (setContent (setEntries w d (setEntry es n (Node.file (freshIno w))))
              (freshIno w) "").content s0 = w.content s0 := by
            simp only [setContent, hne, if_false]
            cases d <;> rfl
          cases hcp : w.faults.copyFails src dst with
          | none =>
            refine ⟨d, n, es, (setContent (setEntries w d (setEntry es n
              (Node.file (freshIno w)))) (freshIno w) "").content s0, hr, hes, hl, ?_,
              fun _ => ⟨s0, hsrc, hdata⟩⟩
            simp only [writeSink]
            exact setContent_setContent _ _ _ _
          | some m =>
            refine ⟨d, n, es, sliceTo ((setContent (setEntries w d (setEntry es n
              (Node.file (freshIno w)))) (freshIno w) "").content s0) m, hr, hes, hl, ?_,
              fun h => by cases h⟩
            simp only [writeSink]
            exact setContent_setContent _ _ _ _
      · -- what is written leaves the tree
        left
        subst h1 hk
        cases s with
        | directory => exact ⟨rfl, fun _ => hr⟩
        | file s0 =>
          cases hcp : w1.faults.copyFails src dst with
          | none => exact ⟨rfl, fun _ => hr⟩
          | some m => exact ⟨rfl, fun _ => hr⟩

theorem copyFile_faults (src dst : Path) (w : World) :
    (copyFile src dst w).1.faults = w.faults := by
  rcases copyFile_effect src dst w with ⟨h, _⟩ | ⟨i, data, _, h, _⟩ | ⟨d, n, es, data, _, _, _, h, _⟩
  · rw [h]
  · rw [h]
    rfl
  · rw [h]
    cases d <;> rfl

theorem topPlain_of (w : World) (h : plainTop w = true) : TopPlain w := by
  intro n x hl
  have hm := mem_of_lookup _ _ _ hl
  simp only [plainTop, List.all_eq_true] at h
  have := h _ hm
  cases x with
  | file i => exact Or.inl ⟨i, rfl⟩
  | dir id => exact Or.inr ⟨id, rfl⟩
  | link t => simp at this
  | other => simp at this

theorem topNoLinks_of_plain (w : World) (h : TopPlain w) : TopNoLinks w := by
  intro n t hl
  rcases h n _ hl with ⟨i, hi⟩ | ⟨id, hi⟩ <;> cases hi

theorem inosOf_cons_file (n : String) (i : Nat) (es : List (String × Node)) :
    inosOf ((n, Node.file i) :: es) = i :: inosOf es := by
  simp [inosOf, List.filterMap_cons]

theorem nodup_inos_lookup (es : List (String × Node)) (h : (inosOf es).Nodup) (n m : String)
    (i : Nat) (hn : lookup es n = some (Node.file i)) (hm : lookup es m = some (Node.file i)) :
    n = m := by
  induction es with
  | nil => simp [lookup] at hn
  | cons e es ih =>
    obtain ⟨k, x⟩ := e
    by_cases hkn : k = n
    · by_cases hkm : k = m
      · exact hkn.symm.trans hkm
      · exfalso
        simp only [lookup, hkn, if_true, Option.some.injEq] at hn
        simp only [lookup, hkm, if_false] at hm
        subst hn
        rw [inosOf_cons_file, List.nodup_cons] at h
        exact h.1 (mem_inosOf es m i (mem_of_lookup _ _ _ hm))
    · by_cases hkm : k = m
      · exfalso
        simp only [lookup, hkm, if_true, Option.some.injEq] at hm
        simp only [lookup, hkn, if_false] at hn
        subst hm
        rw [inosOf_cons_file, List.nodup_cons] at h
        exact h.1 (mem_inosOf es n i (mem_of_lookup _ _ _ hn))
      · simp only [lookup, hkn, if_false] at hn
        simp only [lookup, hkm, if_false] at hm
        have h' : (inosOf es).Nodup := by
          cases x with
          | file j =>
            rw [inosOf_cons_file, List.nodup_cons] at h
            exact h.2
          | dir _ => simpa [inosOf, List.filterMap_cons] using h
          | link _ => simpa [inosOf, List.filterMap_cons] using h
          | other => simpa [inosOf, List.filterMap_cons] using h
        exact ih h' hn hm

theorem topInjective_of (w : World) (h : noHardLinks w = true) : TopInjective w := by
  intro n m i hn hm
  simp only [noHardLinks, decide_eq_true_eq] at h
  exact nodup_inos_lookup w.top h n m i hn hm

/-- What `snapshotsApart` says when `.rof_snapshots` is a directory with entries `S`. -/
theorem apart_of (w : World) (h : snapshotsApart w = true) (id : Nat)
    (S : List (String × Node)) (hd : lookup w.top snapshotDir = some (Node.dir id))
    (hS : lookup w.subs id = some S) (n : String) (i : Nat)
    (hn : lookup w.top n = some (Node.file i)) (e : String) (k : Nat)
    (he : lookup S e = some (Node.file k)) : i ≠ k := by
  have hsd : snapDir w = some (DirRef.sub id) := by
    simp [snapDir, follow_dir_of w _ DirRef.cwd snapshotDir w.top id snapshotDir_not_special
      rfl hd]
  have hinos : snapInos w = inosOf S := by
    simp [snapInos, hsd, entriesOf, hS]
  simp only [snapshotsApart, List.all_eq_true, hinos] at h
  have h1 := h i (mem_inosOf _ n i (mem_of_lookup _ _ _ hn))
  intro e0
  subst e0
  have h2 := mem_inosOf _ e i (mem_of_lookup _ _ _ he)
  simp [h2] at h1

/-! ## One copy back to a top-level name -/

theorem resolve_top (w : World) (o : String) :
    resolve w DirRef.cwd [o] = follow w maxSymlinks DirRef.cwd o := rfl

/-- The path of a snapshot entry leads to the file the entry names, when
`.rof_snapshots` is a directory. -/
theorem resolve_snapPath (w : World) (id : Nat) (S : List (String × Node)) (e : String)
    (k : Nat) (hd : lookup w.top snapshotDir = some (Node.dir id))
    (hS : lookup w.subs id = some S) (he : isSpecialName e = false)
    (hk : lookup S e = some (Node.file k)) :
    resolve w DirRef.cwd (snapPath e) = Resolved.file k := by
  simp only [snapPath, resolve,
    follow_dir_of w _ DirRef.cwd snapshotDir w.top id snapshotDir_not_special rfl hd]
  exact follow_file_of w _ (DirRef.sub id) e S k he hS hk

/-- What a copy to a top-level name does when no top-level entry is a symbolic link:
nothing, new content for the regular file of that name, or a new regular file of that
name.  Nothing but the top level and one content changes. -/
theorem copy_to_top (src : Path) (o : String) (w : World) (hl : TopNoLinks w) :
    (copyFile src [o] w).1.faults = w.faults ∧ (copyFile src [o] w).1.subs = w.subs ∧
    (((copyFile src [o] w).1.top = w.top ∧ (copyFile src [o] w).1.content = w.content ∧
        ((copyFile src [o] w).2 = false → lookup w.top o = some Node.other)) ∨
      (∃ i data, lookup w.top o = some (Node.file i) ∧ isSpecialName o = false ∧
        (copyFile src [o] w).1.top = w.top ∧
        (copyFile src [o] w).1.content = (fun j => if j = i then data else w.content j) ∧
        ((copyFile src [o] w).2 = false →
          ∃ s, resolve w DirRef.cwd src = Resolved.file s ∧
            data = if s = i then "" else w.content s)) ∨
      (∃ data, lookup w.top o = none ∧ isSpecialName o = false ∧
        (copyFile src [o] w).1.top = setEntry w.top o (Node.file (freshIno w)) ∧
        (copyFile src [o] w).1.content
          = (fun j => if j = freshIno w then data else w.content j) ∧
        ((copyFile src [o] w).2 = false →
          ∃ s, resolve w DirRef.cwd src = Resolved.file s ∧ data = w.content s))) := by
  have hf := follow_cwd_cases w maxSymlinks o (hl o)
  rw [← resolve_top] at hf
  rcases copyFile_effect src [o] w with
    ⟨h, h2⟩ | ⟨i, data, hr, h, h2⟩ | ⟨d, n, es, data, hr, hes, hln, h, h2⟩
  · rw [h]
    refine ⟨rfl, rfl, Or.inl ⟨rfl, rfl, ?_⟩⟩
    intro hok
    rcases h2 hok with h3 | h3
    · rcases hf with h4 | ⟨x, h4⟩ | ⟨h5, h4⟩ | ⟨_, _, h4⟩ | ⟨i, _, _, h4⟩
      all_goals first
        | exact h5
        | (rw [h3] at h4; cases h4)
    · rcases hf with h4 | ⟨x, h4⟩ | ⟨h5, h4⟩ | ⟨_, _, h4⟩ | ⟨i, _, _, h4⟩
      all_goals (rw [h3] at h4; cases h4)
  · rw [h]
    refine ⟨rfl, rfl, Or.inr (Or.inl ⟨i, data, ?_, ?_, rfl, rfl, ?_⟩)⟩
    · rcases hf with h4 | ⟨x, h4⟩ | ⟨h5, h4⟩ | ⟨_, _, h4⟩ | ⟨j, _, h5, h4⟩
      all_goals first
        | (rw [hr] at h4
           simp only [Resolved.file.injEq] at h4
           rw [h4]
           exact h5)
        | (rw [hr] at h4; cases h4)
    · rcases hf with h4 | ⟨x, h4⟩ | ⟨h5, h4⟩ | ⟨_, _, h4⟩ | ⟨j, h5, _, h4⟩
      all_goals first
        | (rw [hr] at h4
           simp only [Resolved.file.injEq] at h4
           exact h5)
        | (rw [hr] at h4; cases h4)
    · intro hok
      exact h2 hok
  · have hd : d = DirRef.cwd ∧ n = o ∧ lookup w.top o = none ∧ isSpecialName o = false := by
      rcases hf with h4 | ⟨x, h4⟩ | ⟨h5, h4⟩ | ⟨h6, h5, h4⟩ | ⟨j, _, h5, h4⟩
      all_goals first
        | (rw [hr] at h4
           simp only [Resolved.absent.injEq] at h4
           exact ⟨h4.1, h4.2, h5, h6⟩)
        | (rw [hr] at h4; cases h4)
    obtain ⟨hd1, hd2, hd3, hd4⟩ := hd
    subst hd1 hd2
    simp only [entriesOf, Option.some.injEq] at hes
    subst hes
    rw [h]
    refine ⟨rfl, rfl, Or.inr (Or.inr ⟨data, hd3, hd4, rfl, rfl, ?_⟩)⟩
    intro hok
    exact h2 hok

theorem inosOf_append (xs ys : List (String × Node)) :
    inosOf (xs ++ ys) = inosOf xs ++ inosOf ys := by
  simp [inosOf, List.filterMap_append]

theorem mem_allInos_mono (w v : World) (hs : v.subs = w.subs)
    (ht : v.top = w.top ∨ ∃ o x, lookup w.top o = none ∧ v.top = setEntry w.top o x) (k : Nat)
    (h : k ∈ allInos w) : k ∈ allInos v := by
  simp only [allInos, hs, List.mem_append] at h ⊢
  rcases h with h | h
  · left
    rcases ht with ht | ⟨o, x, hn, ht⟩
    · rw [ht]
      exact h
    · rw [ht, setEntry_of_lookup_none _ _ _ hn, inosOf_append]
      exact List.mem_append_left _ h
  · exact Or.inr h

/-- What one copy to a top-level name keeps, when no top-level entry is a symbolic
link. -/
theorem copy_to_top_frame (src : Path) (o : String) (w : World) (hl : TopNoLinks w) :
    TopNoLinks (copyFile src [o] w).1 ∧
    (∀ n x, lookup w.top n = some x → lookup (copyFile src [o] w).1.top n = some x) ∧
    (∀ n, lookup (copyFile src [o] w).1.top n ≠ lookup w.top n →
      n = o ∧ lookup w.top n = none ∧
        ∃ i, lookup (copyFile src [o] w).1.top n = some (Node.file i)) ∧
    (∀ k, k ∈ allInos w → k ∈ allInos (copyFile src [o] w).1) ∧
    (∀ k, k ∈ allInos w → (∀ n, lookup w.top n ≠ some (Node.file k)) →
      (copyFile src [o] w).1.content k = w.content k ∧
        ∀ n, lookup (copyFile src [o] w).1.top n ≠ some (Node.file k)) ∧
    (TopInjective w → TopInjective (copyFile src [o] w).1) ∧
    (TopInjective w → ∀ n i, lookup w.top n = some (Node.file i) →
      (copyFile src [o] w).1.content i ≠ w.content i → n = o) := by
  obtain ⟨_, hsubs, hc⟩ := copy_to_top src o w hl
  rcases hc with ⟨ht, hcn, _⟩ | ⟨i, data, hlk, _, ht, hcn, _⟩ | ⟨data, hlk, _, ht, hcn, _⟩
  · refine ⟨?_, ?_, ?_, ?_, ?_, ?_, ?_⟩
    · intro n t
      rw [ht]
      exact hl n t
    · intro n x hx
      rw [ht]
      exact hx
    · intro n hne
      rw [ht] at hne
      exact absurd rfl hne
    · exact mem_allInos_mono w _ hsubs (Or.inl ht)
    · intro k _ hk
      rw [hcn, ht]
      exact ⟨rfl, hk⟩
    · intro hinj n m j hn hm
      rw [ht] at hn hm
      exact hinj n m j hn hm
    · intro _ n j _ hne
      rw [hcn] at hne
      exact absurd rfl hne
  · refine ⟨?_, ?_, ?_, ?_, ?_, ?_, ?_⟩
    · intro n t
      rw [ht]
      exact hl n t
    · intro n x hx
      rw [ht]
      exact hx
    · intro n hne
      rw [ht] at hne
      exact absurd rfl hne
    · exact mem_allInos_mono w _ hsubs (Or.inl ht)
    · intro k _ hk
      rw [hcn, ht]
      refine ⟨?_, hk⟩
      have : k ≠ i := by
        intro e
        subst e
        exact hk o hlk
      simp [this]
    · intro hinj n m j hn hm
      rw [ht] at hn hm
      exact hinj n m j hn hm
    · intro hinj n j hn hne
      rw [hcn] at hne
      by_cases hj : j = i
      · subst hj
        exact hinj n o j hn hlk
      · simp [hj] at hne
  · have hfresh : ∀ n k, lookup w.top n = some (Node.file k) → k ≠ freshIno w := by
      intro n k hk
      exact Nat.ne_of_lt (lt_freshIno w k (mem_allInos_top w k
        (mem_inosOf _ n k (mem_of_lookup _ _ _ hk))))
    refine ⟨?_, ?_, ?_, ?_, ?_, ?_, ?_⟩
    · intro n t
      rw [ht, lookup_setEntry]
      by_cases hn : o = n
      · simp [hn]
      · simp only [hn, if_false]
        exact hl n t
    · intro n x hx
      rw [ht, lookup_setEntry]
      by_cases hn : o = n
      · subst hn
        rw [hlk] at hx
        cases hx
      · simp only [hn, if_false]
        exact hx
    · intro n hne
      rw [ht, lookup_setEntry] at hne ⊢
      by_cases hn : o = n
      · subst hn
        exact ⟨rfl, hlk, freshIno w, by simp⟩
      · simp [hn] at hne
    · exact mem_allInos_mono w _ hsubs (Or.inr ⟨o, _, hlk, ht⟩)
    · intro k hk hnot
      have hkf : k ≠ freshIno w := Nat.ne_of_lt (lt_freshIno w k hk)
      rw [hcn, ht]
      refine ⟨by simp [hkf], ?_⟩
      intro n
      rw [lookup_setEntry]
      by_cases hn : o = n
      · simp only [hn, if_true, ne_eq, Option.some.injEq, Node.file.injEq]
        exact fun e => hkf e.symm
      · simp only [hn, if_false]
        exact hnot n
    · intro hinj n m j hn hm
      rw [ht, lookup_setEntry] at hn hm
      by_cases h1 : o = n
      · by_cases h2 : o = m
        · exact h1.symm.trans h2
        · exfalso
          simp only [h1, if_true, Option.some.injEq, Node.file.injEq] at hn
          simp only [h2, if_false] at hm
          exact hfresh m j hm hn.symm
      · by_cases h2 : o = m
        · exfalso
          simp only [h2, if_true, Option.some.injEq, Node.file.injEq] at hm
          simp only [h1, if_false] at hn
          exact hfresh n j hn hm.symm
        · simp only [h1, if_false] at hn
          simp only [h2, if_false] at hm
          exact hinj n m j hn hm
    · intro _ n j hn hne
      rw [hcn] at hne
      have := hfresh n j hn
      simp [this] at hne

/-! ## The loop body of restoreSnapshots -/

theorem parseEntry_mismatch_iff (t : String) (e : DirEntry) :
    parseEntry t e = Parsed.mismatch ↔ offending t e = true := by
  unfold parseEntry offending
  by_cases h1 : e.isRegular = true
  · by_cases h2 : hasSuffix e.name ".bak" = true
    · by_cases h3 : hasSuffix (sliceTo e.name (len e.name - 4)) t = true
      · simp only [h1, h2, h3, Bool.not_true, Bool.false_eq_true, if_false, Bool.and_false,
          iff_false]
        cases lastIndexDot (sliceTo e.name (len e.name - 4)).data <;> simp
      · simp [h1, h2, h3]
    · simp [h1, h2]
  · simp [h1]

/-! ## The loop of restoreSnapshots -/

theorem restoreLoop_faults (t : String) (es : List DirEntry) (w : World) :
    (restoreLoop t es w).world.faults = w.faults := by
  induction es generalizing w with
  | nil => rfl
  | cons e es ih =>
    unfold restoreLoop
    split
    · exact ih w
    · rfl
    · simp only
      rw [ih, copyFile_faults]

/-- Entries in front of which nothing offends are processed one after the other. -/
theorem restoreLoop_append (t : String) (xs ys : List DirEntry) (w : World)
    (h : ∀ e ∈ xs, offending t e = false) :
    (restoreLoop t (xs ++ ys) w).world = (restoreLoop t ys (restoreLoop t xs w).world).world ∧
    (restoreLoop t (xs ++ ys) w).err = (restoreLoop t ys (restoreLoop t xs w).world).err ∧
    (restoreLoop t (xs ++ ys) w).log
      = (restoreLoop t xs w).log ++ (restoreLoop t ys (restoreLoop t xs w).world).log := by
  induction xs generalizing w with
  | nil => exact ⟨rfl, rfl, rfl⟩
  | cons e xs ih =>
    have he : parseEntry t e ≠ Parsed.mismatch := by
      intro hm
      have := (parseEntry_mismatch_iff t e).1 hm
      rw [h e (List.mem_cons_self _ _)] at this
      cases this
    have hrest : ∀ e' ∈ xs, offending t e' = false :=
      fun e' he' => h e' (List.mem_cons_of_mem _ he')
    simp only [List.cons_append]
    cases hp : parseEntry t e with
    | skip =>
      simp only [restoreLoop, hp]
      exact ih w hrest
    | mismatch => exact absurd hp he
    | orig o =>
      simp only [restoreLoop, hp]
      obtain ⟨h1, h2, h3⟩ := ih (copyFile (snapPath e.name) [o] w).1 hrest
      exact ⟨h1, h2, by rw [h3]; rfl⟩

theorem exists_first_offending (t : String) (es : List DirEntry)
    (h : ∃ e ∈ es, offending t e = true) :
    ∃ pre bad post, es = pre ++ bad :: post ∧ (∀ e ∈ pre, offending t e = false) ∧
      offending t bad = true := by
  induction es with
  | nil =>
    obtain ⟨e, he, _⟩ := h
    cases he
  | cons x xs ih =>
    by_cases hx : offending t x = true
    · exact ⟨[], x, xs, rfl, by simp, hx⟩
    · have hx' : offending t x = false := by simpa using hx
      obtain ⟨e, he, hoff⟩ := h
      have hmem : e ∈ xs := by
        rcases List.mem_cons.1 he with h0 | h0
        · subst h0
          rw [hx'] at hoff
          cases hoff
        · exact h0
      obtain ⟨pre, bad, post, h1, h2, h3⟩ := ih ⟨e, hmem, hoff⟩
      refine ⟨x :: pre, bad, post, by simp [h1], ?_, h3⟩
      intro e' he'
      rcases List.mem_cons.1 he' with h0 | h0
      · rw [h0]
        exact hx'
      · exact h2 e' h0

theorem restoreLoop_stops (t : String) (pre post : List DirEntry) (bad : DirEntry) (w : World)
    (hpre : ∀ e ∈ pre, offending t e = false) (hbad : offending t bad = true) :
    (restoreLoop t (pre ++ bad :: post) w).err
        = some (RestoreError.timestampMismatch t snapshotDir) ∧
      (restoreLoop t (pre ++ bad :: post) w).world = (restoreLoop t pre w).world := by
  obtain ⟨h1, h2, _⟩ := restoreLoop_append t pre (bad :: post) w hpre
  have hm := (parseEntry_mismatch_iff t bad).2 hbad
  rw [h1, h2]
  simp [restoreLoop, hm]

theorem topFile_of (w : World) (n : String) (i : Nat) (h : lookup w.top n = some (Node.file i)) :
    topFile w n = some (w.content i) := by
  simp [topFile, h]

/-- C3, amended.  When the listing of the snapshot directory contains a regular file
ending in `.bak` whose name with `.bak` removed does not end with the run tag,
`restoreSnapshots` returns its error, and the world it leaves is the one reached after
the entries in front of the first such entry: nothing is written for a later entry. -/
theorem C3_generation_guard (t : String) (w : World) (es : List DirEntry)
    (hl : readDirSnap w = some es) (hbad : ∃ e ∈ es, offending t e = true) :
    (restoreSnapshots t w).err = some (RestoreError.timestampMismatch t snapshotDir) ∧
      ∃ pre bad post, es = pre ++ bad :: post ∧ (∀ e ∈ pre, offending t e = false) ∧
        offending t bad = true ∧
        (restoreSnapshots t w).world = (restoreLoop t pre w).world ∧
        (restoreSnapshots t w).log = (restoreLoop t pre w).log := by
  obtain ⟨pre, bad, post, h1, h2, h3⟩ := exists_first_offending t es hbad
  have hr : restoreSnapshots t w = restoreLoop t (pre ++ bad :: post) w := by
    simp [restoreSnapshots, hl, h1]
  obtain ⟨h4, h5⟩ := restoreLoop_stops t pre post bad w h2 h3
  obtain ⟨_, _, h6⟩ := restoreLoop_append t pre (bad :: post) w h2
  have hm := (parseEntry_mismatch_iff t bad).2 h3
  refine ⟨by rw [hr, h4], pre, bad, post, h1, h2, h3, by rw [hr, h5], ?_⟩
  rw [hr, h6]
  simp [restoreLoop, hm]

/-- C3 at `staleWorld`: the entry of another run sorts between the two entries of this
run; the error is returned, `a.txt` is restored and `c.txt` is not. -/
theorem C3_generation_guard_witness :
    (restoreSnapshots sampleTag staleWorld).err
        = some (RestoreError.timestampMismatch sampleTag snapshotDir) ∧
      topFile (restoreSnapshots sampleTag staleWorld).world "a.txt" = some "1" ∧
      topFile (restoreSnapshots sampleTag staleWorld).world "c.txt" = some "4" := by
  have h := C3_generation_guard sampleTag staleWorld
    [⟨"a.txt.20240102030405.bak", true⟩, ⟨"b.txt.19990101000000.bak", true⟩,
      ⟨"c.txt.20240102030405.bak", true⟩] (by decide) (by decide)
  exact ⟨h.1, by decide, by decide⟩

/-- C3 as stated fails: the entry `a.txt.x20240102030405.bak` is a regular `.bak` file
whose text after the last `.` is not the run tag, and `restoreSnapshots` returns no
error (it even restores `a.txt` from it). -/
theorem C3_counterexample :
    readDirSnap gluedTagWorld = some [⟨"a.txt.x20240102030405.bak", true⟩] ∧
      hasSuffix "a.txt.x20240102030405.bak" ".bak" = true ∧
      encodedTag "a.txt.x20240102030405.bak" ≠ sampleTag ∧
      (restoreSnapshots sampleTag gluedTagWorld).err = none ∧
      topFile (restoreSnapshots sampleTag gluedTagWorld).world "a.txt" = some "1" := by
  decide

/-- C9, amended.  For every file name and every run tag that contains no `.`, the name
the loop body of `restoreSnapshots` derives from the snapshot name
`name + "." + tag + ".bak"` is `name`. -/
theorem C9_reverse_parsing (name tag : String) (h : '.' ∉ tag.data) :
    parseEntry tag ⟨snapshotName name tag, true⟩ = Parsed.orig name :=
  parseEntry_snapshotName name tag h

/-- C9 at a name that contains the separator. -/
theorem C9_reverse_parsing_witness :
    '.' ∉ sampleTag.data ∧
      parseEntry sampleTag ⟨snapshotName "archive.tar.gz" sampleTag, true⟩
        = Parsed.orig "archive.tar.gz" :=
  ⟨by decide, C9_reverse_parsing "archive.tar.gz" sampleTag (by decide)⟩

/-- C9 as stated fails for a tag that contains the separator: from the snapshot name of
`a` under the tag `1.2` the loop body derives `a.1`. -/
theorem C9_counterexample :
    parseEntry "1.2" ⟨snapshotName "a" "1.2", true⟩ = Parsed.orig "a.1" ∧
      parseEntry "1.2" ⟨snapshotName "a" "1.2", true⟩ ≠ Parsed.orig "a" := by
  decide

theorem resolve_snapPath_absent (w : World) (id : Nat) (S : List (String × Node)) (e : String)
    (hd : lookup w.top snapshotDir = some (Node.dir id))
    (hS : lookup w.subs id = some S) (he : isSpecialName e = false)
    (hk : lookup S e = none) :
    resolve w DirRef.cwd (snapPath e) = Resolved.absent (DirRef.sub id) e := by
  simp only [snapPath, resolve,
    follow_dir_of w _ DirRef.cwd snapshotDir w.top id snapshotDir_not_special rfl hd]
  exact follow_absent_of w _ (DirRef.sub id) e S he hS hk

/-- A top-level name that holds a regular file leads to that file or to nothing. -/
theorem resolve_top_file (w : World) (f : String) (i s : Nat)
    (hf : lookup w.top f = some (Node.file i))
    (h : resolve w DirRef.cwd [f] = Resolved.file s) : s = i := by
  have hl : ∀ t, lookup w.top f ≠ some (Node.link t) := by
    intro t ht
    rw [hf] at ht
    cases ht
  rw [resolve_top] at h
  rcases follow_cwd_cases w maxSymlinks f hl with h4 | ⟨x, h4⟩ | ⟨_, h4⟩ | ⟨_, _, h4⟩ | ⟨j, _, h5, h4⟩
  · rw [h] at h4
    cases h4
  · rw [h] at h4
    cases h4
  · rw [h] at h4
    cases h4
  · rw [h] at h4
    cases h4
  · rw [h] at h4
    simp only [Resolved.file.injEq] at h4
    rw [hf] at h5
    simp only [Option.some.injEq, Node.file.injEq] at h5
    rw [h4, h5]

/-- One snapshot that returns no error: the source leads to a file `s`, and the entry
of the snapshot name is a regular file `k`, the one that was there or a new one, with
the content of `s`. -/
theorem snapshot_step (t g : String) (w : World) (id : Nat) (S : List (String × Node))
    (hinv : SnapshotState w id S) (ht : '/' ∉ t.data) (hg : '/' ∉ g.data)
    (hok : (copyFile [g] (joinPath snapshotDir (snapshotName g t)) w).2 = false) :
    ∃ s k S', resolve w DirRef.cwd [g] = Resolved.file s ∧
      (lookup S (snapshotName g t) = some (Node.file k) ∨
        (lookup S (snapshotName g t) = none ∧ k = freshIno w)) ∧
      (copyFile [g] (joinPath snapshotDir (snapshotName g t)) w).1.top = w.top ∧
      lookup (copyFile [g] (joinPath snapshotDir (snapshotName g t)) w).1.subs id = some S' ∧
      lookup S' (snapshotName g t) = some (Node.file k) ∧
      (∀ e, e ≠ snapshotName g t → lookup S' e = lookup S e) ∧
      (∀ p ∈ S', p ∈ S ∨ p = (snapshotName g t, Node.file k)) ∧
      (copyFile [g] (joinPath snapshotDir (snapshotName g t)) w).1.content
        = (fun j => if j = k then (if s = k then "" else w.content s) else w.content j) := by
  obtain ⟨hd, hS, hfiles, _, _⟩ := hinv
  rw [joinPath_snapshotName g t hg ht] at hok ⊢
  have hsp := snapshotName_not_special g t
  rcases copyFile_effect [g] [snapshotDir, snapshotName g t] w with
    ⟨_, h2⟩ | ⟨i, data, hr, h, h2⟩ | ⟨d, n, es, data, hr, hes, hln, h, h2⟩
  · exfalso
    cases hlk : lookup S (snapshotName g t) with
    | none =>
      have := resolve_snapPath_absent w id S _ hd hS hsp hlk
      simp only [snapPath] at this
      rcases h2 hok with h3 | h3 <;> rw [this] at h3 <;> cases h3
    | some x =>
      obtain ⟨k, hk⟩ := hfiles _ (mem_of_lookup _ _ _ hlk)
      simp only at hk
      subst hk
      have := resolve_snapPath w id S _ k hd hS hsp hlk
      simp only [snapPath] at this
      rcases h2 hok with h3 | h3 <;> rw [this] at h3 <;> cases h3
  · obtain ⟨s, hs, hdata⟩ := h2 hok
    have hlk : lookup S (snapshotName g t) = some (Node.file i) := by
      cases hlk : lookup S (snapshotName g t) with
      | none =>
        have := resolve_snapPath_absent w id S _ hd hS hsp hlk
        simp only [snapPath] at this
        rw [this] at hr
        cases hr
      | some x =>
        obtain ⟨k, hk⟩ := hfiles _ (mem_of_lookup _ _ _ hlk)
        simp only at hk
        subst hk
        have := resolve_snapPath w id S _ k hd hS hsp hlk
        simp only [snapPath] at this
        rw [this] at hr
        simp only [Resolved.file.injEq] at hr
        rw [hr]
    refine ⟨s, i, S, hs, Or.inl hlk, ?_, ?_, hlk, fun e _ => rfl, fun p hp => Or.inl hp, ?_⟩
    · rw [h]
      rfl
    · rw [h]
      exact hS
    · rw [h, hdata]
      rfl
  · obtain ⟨s, hs, hdata⟩ := h2 hok
    have hlk : lookup S (snapshotName g t) = none := by
      cases hlk : lookup S (snapshotName g t) with
      | none => rfl
      | some x =>
        obtain ⟨k, hk⟩ := hfiles _ (mem_of_lookup _ _ _ hlk)
        simp only at hk
        subst hk
        have := resolve_snapPath w id S _ k hd hS hsp hlk
        simp only [snapPath] at this
        rw [this] at hr
        cases hr
    have habs := resolve_snapPath_absent w id S _ hd hS hsp hlk
    simp only [snapPath] at habs
    rw [habs] at hr
    simp only [Resolved.absent.injEq] at hr
    obtain ⟨hd1, hd2⟩ := hr
    subst hd1 hd2
    simp only [entriesOf, hS, Option.some.injEq] at hes
    subst hes
    have hsf : s ≠ freshIno w :=
      Nat.ne_of_lt (lt_freshIno w s (resolve_file_mem w _ _ s hs))
    refine ⟨s, freshIno w, setEntry S (snapshotName g t) (Node.file (freshIno w)), hs,
      Or.inr ⟨hlk, rfl⟩, ?_, ?_, lookup_setEntry_self _ _ _,
      fun e he => lookup_setEntry_ne _ _ _ _ he, fun p hp => mem_setEntry _ _ _ _ hp, ?_⟩
    · rw [h]
      rfl
    · rw [h]
      exact lookup_setEntry_self _ _ _
    · rw [h, hdata]
      simp only [setContent, setEntries, hsf, if_false]

theorem snapshotLoop_cons_regular (t : String) (e : DirEntry) (rest : List DirEntry) (w : World)
    (he : e.isRegular = true) (h : (snapshotLoop t (e :: rest) w).2 = []) :
    (copyFile [e.name] (joinPath snapshotDir (snapshotName e.name t)) w).2 = false ∧
      (snapshotLoop t rest
        (copyFile [e.name] (joinPath snapshotDir (snapshotName e.name t)) w).1).2 = [] ∧
      (snapshotLoop t (e :: rest) w).1 = (snapshotLoop t rest
        (copyFile [e.name] (joinPath snapshotDir (snapshotName e.name t)) w).1).1 := by
  simp only [snapshotLoop, he, if_true, List.append_eq_nil] at h ⊢
  refine ⟨?_, h.2, trivial⟩
  cases hr : (copyFile [e.name] (joinPath snapshotDir (snapshotName e.name t)) w).2 with
  | false => rfl
  | true => simp [hr] at h

/-- The loop of `createSnapshots` when it prints nothing: the top level stays, the
top-level files keep their content, and every top-level regular file listed for the
loop, or snapshotted already, has its snapshot afterwards. -/
theorem snapshotLoop_spec (t : String) (ht : '/' ∉ t.data) (L : List DirEntry) (w : World)
    (id : Nat) (S : List (String × Node)) (hinv : SnapshotState w id S)
    (hnames : ∀ e ∈ L, '/' ∉ e.name.data) (hlog : (snapshotLoop t L w).2 = []) :
    ∃ S', SnapshotState (snapshotLoop t L w).1 id S' ∧
      (snapshotLoop t L w).1.top = w.top ∧
      (∀ n i, lookup w.top n = some (Node.file i) →
        (snapshotLoop t L w).1.content i = w.content i) ∧
      (∀ f i, lookup w.top f = some (Node.file i) →
        (⟨f, true⟩ ∈ L ∨
          ∃ k, lookup S (snapshotName f t) = some (Node.file k) ∧ w.content k = w.content i) →
        ∃ k, lookup S' (snapshotName f t) = some (Node.file k) ∧
          (snapshotLoop t L w).1.content k = w.content i) ∧
      (∀ p ∈ S', p ∈ S ∨ ∃ f, p.1 = snapshotName f t) := by
  induction L generalizing w S with
  | nil =>
    refine ⟨S, hinv, rfl, fun n i _ => rfl, ?_, fun p hp => Or.inl hp⟩
    intro f i _ h
    rcases h with h | h
    · cases h
    · exact h
  | cons e rest ih =>
    have hrest : ∀ e' ∈ rest, '/' ∉ e'.name.data :=
      fun e' he' => hnames e' (List.mem_cons_of_mem _ he')
    by_cases he : e.isRegular = true
    · obtain ⟨h1, h2, h3⟩ := snapshotLoop_cons_regular t e rest w he hlog
      obtain ⟨s, k, S1, hs, hk, htop, hsubs, hlk, hoth, hmem, hcont⟩ :=
        snapshot_step t e.name w id S hinv ht (hnames e (List.mem_cons_self _ _)) h1
      obtain ⟨hd, hS, hfiles, hsep, hsinj⟩ := hinv
      -- the inode written is no top-level file and no other snapshot
      have hknottop : ∀ n i, lookup w.top n = some (Node.file i) → i ≠ k := by
        intro n i hn
        rcases hk with hk | ⟨_, hk⟩
        · exact hsep n i hn _ k hk
        · rw [hk]
          exact Nat.ne_of_lt (lt_freshIno w i (mem_allInos_top w i
            (mem_inosOf _ n i (mem_of_lookup _ _ _ hn))))
      have hkother : ∀ e' k', e' ≠ snapshotName e.name t →
          lookup S e' = some (Node.file k') → k' ≠ k := by
        intro e' k' hne hk'
        rcases hk with hk | ⟨_, hk⟩
        · intro e0
          subst e0
          exact hne (hsinj _ _ _ hk' hk)
        · rw [hk]
          exact Nat.ne_of_lt (lt_freshIno w k' (mem_allInos_sub w id S k' hS
            (mem_inosOf _ e' k' (mem_of_lookup _ _ _ hk'))))
      have hinv1 : SnapshotState
          (copyFile [e.name] (joinPath snapshotDir (snapshotName e.name t)) w).1 id S1 := by
        refine ⟨by rw [htop]; exact hd, hsubs, ?_, ?_, ?_⟩
        · intro p hp
          rcases hmem p hp with h0 | h0
          · exact hfiles p h0
          · exact ⟨k, by rw [h0]⟩
        · intro n i hn e' k' hk'
          rw [htop] at hn
          by_cases hne : e' = snapshotName e.name t
          · rw [hne, hlk] at hk'
            simp only [Option.some.injEq, Node.file.injEq] at hk'
            rw [← hk']
            exact hknottop n i hn
          · rw [hoth e' hne] at hk'
            exact hsep n i hn e' k' hk'
        · intro n m k' hn hm
          by_cases h1 : n = snapshotName e.name t
          · by_cases h2 : m = snapshotName e.name t
            · rw [h1, h2]
            · exfalso
              rw [h1, hlk] at hn
              simp only [Option.some.injEq, Node.file.injEq] at hn
              rw [hoth m h2] at hm
              exact hkother m k' h2 hm hn.symm
          · by_cases h2 : m = snapshotName e.name t
            · exfalso
              rw [h2, hlk] at hm
              simp only [Option.some.injEq, Node.file.injEq] at hm
              rw [hoth n h1] at hn
              exact hkother n k' h1 hn hm.symm
            · rw [hoth n h1] at hn
              rw [hoth m h2] at hm
              exact hsinj n m k' hn hm
      have hkeep : ∀ n i, lookup w.top n = some (Node.file i) →
          (copyFile [e.name] (joinPath snapshotDir (snapshotName e.name t)) w).1.content i
            = w.content i := by
        intro n i hn
        rw [hcont]
        simp [hknottop n i hn]
      obtain ⟨S', k1, k2, k3, k4, k5⟩ := ih _ S1 hinv1 hrest h2
      rw [h3]
      refine ⟨S', k1, k2.trans htop, ?_, ?_, ?_⟩
      · intro n i hn
        rw [k3 n i (by rw [htop]; exact hn), hkeep n i hn]
      · intro f i hf h
        have hfi := hkeep f i hf
        have := k4 f i (by rw [htop]; exact hf) ?_
        · obtain ⟨k', a1, a2⟩ := this
          exact ⟨k', a1, by rw [a2, hfi]⟩
        · by_cases hn : e.name = f
          · right
            refine ⟨k, by rw [← hn]; exact hlk, ?_⟩
            have hsi : s = i := resolve_top_file w f i s hf (by rw [← hn]; exact hs)
            have hik : i ≠ k := hknottop f i hf
            rw [hfi, hcont, hsi]
            simp [hik]
          · rcases h with h | ⟨k', a1, a2⟩
            · rcases List.mem_cons.1 h with h0 | h0
              · exact absurd (by rw [← h0]) hn
              · exact Or.inl h0
            · right
              have hd' : snapshotName f t ≠ snapshotName e.name t :=
                fun e0 => hn (snapshotName_inj _ _ _ e0).symm
              refine ⟨k', by rw [hoth _ hd']; exact a1, ?_⟩
              have hk'k : k' ≠ k := hkother _ k' hd' a1
              rw [hfi, hcont]
              simp [hk'k, a2]
      · intro p hp
        rcases k5 p hp with h0 | h0
        · rcases hmem p h0 with h4 | h4
          · exact Or.inl h4
          · exact Or.inr ⟨e.name, by rw [h4]⟩
        · exact Or.inr h0
    · have hstep : snapshotLoop t (e :: rest) w = snapshotLoop t rest w := by
        simp [snapshotLoop, he]
      rw [hstep] at hlog ⊢
      obtain ⟨S', k1, k2, k3, k4, k5⟩ := ih w S hinv hrest hlog
      refine ⟨S', k1, k2, k3, ?_, k5⟩
      intro f i hf h
      apply k4 f i hf
      rcases h with h | h
      · rcases List.mem_cons.1 h with h0 | h0
        · rw [← h0] at he
          exact absurd rfl he
        · exact Or.inl h0
      · exact Or.inr h

theorem createSnapshots_quiet (t : String) (w : World) (h : (createSnapshots t w).2 = []) :
    (mkdirSnap w).2 ≠ MkdirResult.failed ∧
      createSnapshots t w
        = snapshotLoop t ((mkdirSnap w).1.top.map DirEntry.ofNode) (mkdirSnap w).1 := by
  unfold createSnapshots at h ⊢
  by_cases hm : (mkdirSnap w).2 = MkdirResult.failed
  · simp [hm] at h
  · refine ⟨hm, ?_⟩
    simp only [hm, if_false] at h ⊢
    unfold readDirCwd at h ⊢
    by_cases hr : (mkdirSnap w).1.faults.readCwdFails = true
    · simp [hr] at h
    · simp [hr]

theorem mem_listing_of_lookup (top : List (String × Node)) (f : String) (i : Nat)
    (h : lookup top f = some (Node.file i)) :
    (⟨f, true⟩ : DirEntry) ∈ top.map DirEntry.ofNode := by
  have := mem_of_lookup top f (Node.file i) h
  exact List.mem_map.2 ⟨(f, Node.file i), this, rfl⟩

theorem snapshotState_nil (w : World) (id : Nat)
    (hd : lookup w.top snapshotDir = some (Node.dir id)) (hrow : lookup w.subs id = some []) :
    SnapshotState w id [] := by
  refine ⟨hd, hrow, ?_, ?_, ?_⟩
  · intro p hp
    cases hp
  · intro n i _ e k hk
    simp [lookup] at hk
  · intro n m k hn
    simp [lookup] at hn

/-- After `os.Mkdir`, when the snapshot directory was absent or empty: it is an empty
directory of its own, and the top-level files are the ones there were. -/
theorem mkdirSnap_state (w : World) (h : (mkdirSnap w).2 ≠ MkdirResult.failed)
    (h0 : lookup w.top snapshotDir = none ∨
      ∃ id, lookup w.top snapshotDir = some (Node.dir id) ∧ lookup w.subs id = some []) :
    (∃ id, SnapshotState (mkdirSnap w).1 id []) ∧ (mkdirSnap w).1.content = w.content ∧
    (∀ f i, lookup (mkdirSnap w).1.top f = some (Node.file i) ↔
      lookup w.top f = some (Node.file i)) ∧
    (∀ p ∈ (mkdirSnap w).1.top, p ∈ w.top ∨ p.1 = snapshotDir) := by
  rcases h0 with hl | ⟨id, hl, hrow⟩
  · by_cases hm : w.faults.mkdirFails = true
    · simp [mkdirSnap, hl, hm] at h
    · have hw : (mkdirSnap w).1 = { w with
          top := setEntry w.top snapshotDir (Node.dir (freshDir w))
          subs := setEntry w.subs (freshDir w) [] } := by
        simp [mkdirSnap, hl, hm]
      rw [hw]
      refine ⟨⟨freshDir w, snapshotState_nil _ _ (lookup_setEntry_self _ _ _)
        (lookup_setEntry_self _ _ _)⟩, rfl, ?_, ?_⟩
      · intro f i
        show lookup (setEntry w.top snapshotDir (Node.dir (freshDir w))) f = _ ↔ _
        rw [lookup_setEntry]
        by_cases hf : snapshotDir = f
        · subst hf
          simp [hl]
        · simp [hf]
      · intro p hp
        rcases mem_setEntry _ _ _ _ hp with h1 | h1
        · exact Or.inl h1
        · exact Or.inr (by rw [h1])
  · have hw : (mkdirSnap w).1 = w := by simp [mkdirSnap, hl]
    rw [hw]
    exact ⟨⟨id, snapshotState_nil w id hl hrow⟩, rfl, fun f i => Iff.rfl, fun p hp => Or.inl hp⟩

/-- What a run of `createSnapshots` that prints nothing leaves, when the snapshot
directory was absent or empty, no top-level name holds a separator and the tag holds
none: a snapshot directory of regular files, each named as a snapshot, among them, for
every top-level regular file, its snapshot with its content. -/
theorem createSnapshots_spec (t : String) (w : World) (hnames : ∀ p ∈ w.top, '/' ∉ p.1.data)
    (ht : '/' ∉ t.data)
    (hsnap : lookup w.top snapshotDir = none ∨
      ∃ id, lookup w.top snapshotDir = some (Node.dir id) ∧ lookup w.subs id = some [])
    (hquiet : (createSnapshots t w).2 = []) :
    ∃ id S, SnapshotState (createSnapshots t w).1 id S ∧
      (∀ p ∈ S, ∃ f, p.1 = snapshotName f t) ∧
      (∀ f i, lookup w.top f = some (Node.file i) →
        ∃ k, lookup S (snapshotName f t) = some (Node.file k) ∧
          (createSnapshots t w).1.content k = w.content i) := by
  obtain ⟨hm, hcs⟩ := createSnapshots_quiet t w hquiet
  obtain ⟨⟨id, hinv⟩, hcont, hfile, hmem⟩ := mkdirSnap_state w hm hsnap
  rw [hcs] at hquiet ⊢
  have hn : ∀ e ∈ (mkdirSnap w).1.top.map DirEntry.ofNode, '/' ∉ e.name.data := by
    intro e he
    obtain ⟨p, hp, hpe⟩ := List.mem_map.1 he
    rw [← hpe]
    rcases hmem p hp with h1 | h1
    · exact hnames p h1
    · simp only [DirEntry.ofNode, h1]
      decide
  obtain ⟨S, k1, _, _, k4, k5⟩ :=
    snapshotLoop_spec t ht _ (mkdirSnap w).1 id [] hinv hn hquiet
  refine ⟨id, S, k1, ?_, ?_⟩
  · intro p hp
    rcases k5 p hp with h1 | h1
    · cases h1
    · exact h1
  · intro f i hf
    have hf1 := (hfile f i).2 hf
    obtain ⟨k, a1, a2⟩ := k4 f i hf1 (Or.inl (mem_listing_of_lookup _ f i hf1))
    exact ⟨k, a1, by rw [a2, hcont]⟩

theorem topFile_some (w : World) (f c : String) (h : topFile w f = some c) :
    ∃ i, lookup w.top f = some (Node.file i) ∧ w.content i = c := by
  unfold topFile at h
  split at h
  · rename_i i hi
    simp only [Option.some.injEq] at h
    exact ⟨i, hi, h⟩
  · cases h

theorem snapshotState_of_ready (w : World) (h : snapshotsReady w = true) :
    lookup w.top snapshotDir = none ∨ ∃ id S, SnapshotState w id S := by
  unfold snapshotsReady at h
  split at h
  · rename_i hl
    exact Or.inl hl
  · rename_i id hd
    split at h
    · rename_i S hS
      simp only [Bool.and_eq_true, List.all_eq_true, decide_eq_true_eq] at h
      obtain ⟨⟨h1, h2⟩, h3⟩ := h
      refine Or.inr ⟨id, S, hd, hS, ?_, apart_of w h3 id S hd hS, nodup_inos_lookup S h2⟩
      intro p hp
      have := h1 p hp
      cases hq : p.2 with
      | file i => exact ⟨i, rfl⟩
      | dir _ => simp [DirEntry.ofNode, hq] at this
      | link _ => simp [DirEntry.ofNode, hq] at this
      | other => simp [DirEntry.ofNode, hq] at this
    · cases h
  · cases h

/-- After `os.Mkdir`, when the snapshot directory was absent or a directory of regular
files kept apart: it is such a directory, and the top-level files are the ones there
were. -/
theorem mkdirSnap_state_of (w : World) (h : (mkdirSnap w).2 ≠ MkdirResult.failed)
    (h0 : lookup w.top snapshotDir = none ∨ ∃ id S, SnapshotState w id S) :
    (∃ id S, SnapshotState (mkdirSnap w).1 id S) ∧ (mkdirSnap w).1.content = w.content ∧
    (∀ f i, lookup (mkdirSnap w).1.top f = some (Node.file i) ↔
      lookup w.top f = some (Node.file i)) ∧
    (∀ p ∈ (mkdirSnap w).1.top, p ∈ w.top ∨ p.1 = snapshotDir) := by
  rcases h0 with hl | ⟨id, S, hinv⟩
  · obtain ⟨⟨id, h1⟩, h2, h3, h4⟩ := mkdirSnap_state w h (Or.inl hl)
    exact ⟨⟨id, [], h1⟩, h2, h3, h4⟩
  · have hw : (mkdirSnap w).1 = w := by simp [mkdirSnap, hinv.1]
    rw [hw]
    exact ⟨⟨id, S, hinv⟩, rfl, fun f i => Iff.rfl, fun p hp => Or.inl hp⟩

/-- What a run of `createSnapshots` that prints nothing leaves, when the snapshot
directory was absent or a directory of regular files kept apart, no top-level name
holds a separator and the tag holds none: for every top-level regular file, its
snapshot with its content. -/
theorem createSnapshots_complete (t : String) (w : World)
    (hnames : ∀ p ∈ w.top, '/' ∉ p.1.data) (ht : '/' ∉ t.data)
    (hsnap : lookup w.top snapshotDir = none ∨ ∃ id S, SnapshotState w id S)
    (hquiet : (createSnapshots t w).2 = []) :
    ∃ id S, SnapshotState (createSnapshots t w).1 id S ∧
      ∀ f i, lookup w.top f = some (Node.file i) →
        ∃ k, lookup S (snapshotName f t) = some (Node.file k) ∧
          (createSnapshots t w).1.content k = w.content i := by
  obtain ⟨hm, hcs⟩ := createSnapshots_quiet t w hquiet
  obtain ⟨⟨id, S0, hinv⟩, hcont, hfile, hmem⟩ := mkdirSnap_state_of w hm hsnap
  rw [hcs] at hquiet ⊢
  have hn : ∀ e ∈ (mkdirSnap w).1.top.map DirEntry.ofNode, '/' ∉ e.name.data := by
    intro e he
    obtain ⟨p, hp, hpe⟩ := List.mem_map.1 he
    rw [← hpe]
    rcases hmem p hp with h1 | h1
    · exact hnames p h1
    · simp only [DirEntry.ofNode, h1]
      decide
  obtain ⟨S, k1, _, _, k4, _⟩ :=
    snapshotLoop_spec t ht _ (mkdirSnap w).1 id S0 hinv hn hquiet
  refine ⟨id, S, k1, ?_⟩
  intro f i hf
  have hf1 := (hfile f i).2 hf
  obtain ⟨k, a1, a2⟩ := k4 f i hf1 (Or.inl (mem_listing_of_lookup _ f i hf1))
  exact ⟨k, a1, by rw [a2, hcont]⟩

/-- C2, amended.  Let `.rof_snapshots` be absent or be itself a directory whose entries
are regular files, no two of them hard links to one file and none of them a hard link
to a top-level file; let no top-level name hold a `/` (entry names never do) and let
the tag hold none.  When `createSnapshots` reports no failure (creating the snapshot
directory, listing the working directory and every copy succeed), the snapshot
directory holds, for every top-level regular file `f` present at the start, a regular
file named `f + "." + tag + ".bak"` with the content `f` had at the start. -/
theorem C2_snapshot_completeness (tag : String) (w : World)
    (hnames : ∀ p ∈ w.top, '/' ∉ p.1.data) (htag : '/' ∉ tag.data)
    (hsnap : snapshotsReady w = true)
    (hquiet : (createSnapshots tag w).2 = []) (f c : String)
    (hf : topFile w f = some c) :
    snapFile (createSnapshots tag w).1 (f ++ "." ++ tag ++ ".bak") = some c := by
  obtain ⟨id, S, ⟨hd, hS, _⟩, hall⟩ :=
    createSnapshots_complete tag w hnames htag (snapshotState_of_ready w hsnap) hquiet
  obtain ⟨i, hi, hc⟩ := topFile_some w f c hf
  obtain ⟨k, a1, a2⟩ := hall f i hi
  have a1' : lookup S (f ++ "." ++ tag ++ ".bak") = some (Node.file k) := a1
  simp [snapFile, hd, hS, a1', a2, hc]

/-- C2 at the sample directory, and at a directory in which an earlier run left a
snapshot behind: the snapshot of `a.txt`. -/
theorem C2_snapshot_completeness_witness :
    snapFile (createSnapshots sampleTag sampleWorld).1 ("a.txt" ++ "." ++ sampleTag ++ ".bak")
        = some "1" ∧
      snapFile (createSnapshots sampleTag leftoverWorld).1
        ("a.txt" ++ "." ++ sampleTag ++ ".bak") = some "1" :=
  ⟨C2_snapshot_completeness sampleTag sampleWorld (by decide) (by decide) (by decide)
      (by decide) "a.txt" "1" (by decide),
    C2_snapshot_completeness sampleTag leftoverWorld (by decide) (by decide) (by decide)
      (by decide) "a.txt" "1" (by decide)⟩

/-- C2 as stated fails.  With the tag `/../../x` the cleaned destination of every
snapshot is `x.bak` in the working directory: `createSnapshots` reports nothing and the
snapshot directory stays empty.  In `preLinkedWorld` the snapshot of `a.txt` is written
through a symbolic link into `b.txt` before `b.txt` is copied: `createSnapshots`
reports nothing and the snapshot of `b.txt` holds `1`, not `2`.  In `preHardWorld` the
same happens through a hard link.  In `preTwinWorld` the two snapshots are one file, and
the snapshot of `a.txt` ends with `2`.  In `prePipeWorld` the snapshot of `a.txt` is
written into a named pipe, and no regular file of its name exists afterwards. -/
theorem C2_counterexample :
    ((createSnapshots "/../../x" sampleWorld).2 = [] ∧
      topFile sampleWorld "a.txt" = some "1" ∧
      snapFile (createSnapshots "/../../x" sampleWorld).1 ("a.txt" ++ "." ++ "/../../x" ++ ".bak")
        = none ∧
      lookup (createSnapshots "/../../x" sampleWorld).1.top snapshotDir = some (Node.dir 1) ∧
      lookup (createSnapshots "/../../x" sampleWorld).1.subs 1 = some [] ∧
      topFile (createSnapshots "/../../x" sampleWorld).1 "x.bak" = some "2") ∧
    ((createSnapshots sampleTag preLinkedWorld).2 = [] ∧
      topFile preLinkedWorld "b.txt" = some "2" ∧
      snapFile (createSnapshots sampleTag preLinkedWorld).1
        ("b.txt" ++ "." ++ sampleTag ++ ".bak") = some "1") ∧
    ((createSnapshots sampleTag preHardWorld).2 = [] ∧
      topFile preHardWorld "b.txt" = some "2" ∧
      snapFile (createSnapshots sampleTag preHardWorld).1
        ("b.txt" ++ "." ++ sampleTag ++ ".bak") = some "1") ∧
    ((createSnapshots sampleTag preTwinWorld).2 = [] ∧
      topFile preTwinWorld "a.txt" = some "1" ∧
      snapFile (createSnapshots sampleTag preTwinWorld).1
        ("a.txt" ++ "." ++ sampleTag ++ ".bak") = some "2") ∧
    ((createSnapshots sampleTag prePipeWorld).2 = [] ∧
      topFile prePipeWorld "a.txt" = some "1" ∧
      snapFile (createSnapshots sampleTag prePipeWorld).1
        ("a.txt" ++ "." ++ sampleTag ++ ".bak") = none) :=
  ⟨by decide, by decide, by decide, by decide, by decide⟩
/-! ## Round trip -/

theorem noIOError_cons (m : Msg) (log : List Msg) :
    noIOError (m :: log) = true ↔ m.isIOError = false ∧ noIOError log = true := by
  simp [noIOError]

theorem snapInos_eq (w : World) (id : Nat) (S : List (String × Node))
    (hd : lookup w.top snapshotDir = some (Node.dir id)) (hS : lookup w.subs id = some S) :
    snapInos w = inosOf S := by
  have hsd : snapDir w = some (DirRef.sub id) := by
    simp [snapDir, follow_dir_of w _ DirRef.cwd snapshotDir w.top id snapshotDir_not_special
      rfl hd]
  simp [snapInos, hsd, entriesOf, hS]

theorem readDirSnap_eq (w : World) (id : Nat) (S : List (String × Node))
    (hd : lookup w.top snapshotDir = some (Node.dir id)) (hS : lookup w.subs id = some S) :
    readDirSnap w = if w.faults.readSnapFails then none else some (S.map DirEntry.ofNode) := by
  have hsd : snapDir w = some (DirRef.sub id) := by
    simp [snapDir, follow_dir_of w _ DirRef.cwd snapshotDir w.top id snapshotDir_not_special
      rfl hd]
  simp [readDirSnap, hsd, entriesOf, hS]

/-- Restoring from entries that all are snapshots under the current tag, into a top
level of regular files and directories without hard links: when no copy fails, every
file of the state `G` whose snapshot holds its content and is among the entries, or
which has its content already, has its content afterwards. -/
theorem restoreLoop_roundtrip (G : String → Option String) (t : String) (ht : '.' ∉ t.data)
    (id : Nat) (S : List (String × Node)) (es : List DirEntry) (w : World)
    (hd : lookup w.top snapshotDir = some (Node.dir id)) (hS : lookup w.subs id = some S)
    (hplain : TopPlain w) (hinj : TopInjective w)
    (hsep : ∀ n i, lookup w.top n = some (Node.file i) →
      ∀ e k, lookup S e = some (Node.file k) → i ≠ k)
    (hes : ∀ e ∈ es, ∃ f k, e = ⟨snapshotName f t, true⟩ ∧
      lookup S e.name = some (Node.file k) ∧ ∀ c, G f = some c → w.content k = c)
    (hlog : noIOError (restoreLoop t es w).log = true) :
    (restoreLoop t es w).err = none ∧
      ∀ f c, G f = some c →
        (⟨snapshotName f t, true⟩ ∈ es ∨ topFile w f = some c) →
        topFile (restoreLoop t es w).world f = some c := by
  induction es generalizing w with
  | nil =>
    refine ⟨rfl, ?_⟩
    intro f c _ h
    rcases h with h | h
    · cases h
    · exact h
  | cons e rest ih =>
    obtain ⟨f0, k0, he, hk0, hG0⟩ := hes e (List.mem_cons_self _ _)
    have hp : parseEntry t e = Parsed.orig f0 := by
      rw [he]
      exact parseEntry_snapshotName f0 t ht
    have hname : e.name = snapshotName f0 t := by rw [he]
    simp only [restoreLoop, hp] at hlog ⊢
    rw [noIOError_cons] at hlog
    have hr2 : (copyFile (snapPath e.name) [f0] w).2 = false := by
      cases hr : (copyFile (snapPath e.name) [f0] w).2 with
      | false => rfl
      | true =>
        have := hlog.1
        simp [hr, Msg.isIOError] at this
    have hl := topNoLinks_of_plain w hplain
    have hsrc : resolve w DirRef.cwd (snapPath e.name) = Resolved.file k0 :=
      resolve_snapPath w id S e.name k0 hd hS
        (by rw [hname]; exact snapshotName_not_special f0 t) hk0
    obtain ⟨g1, g2, _, _, _, g6, _⟩ := copy_to_top_frame (snapPath e.name) f0 w hl
    obtain ⟨_, gsubs, gc⟩ := copy_to_top (snapPath e.name) f0 w hl
    -- what the copy did: the inode `j` of `f0` afterwards, and the content
    have hdid : ∃ j, lookup (copyFile (snapPath e.name) [f0] w).1.top f0 = some (Node.file j) ∧
        (∀ n i, lookup w.top n = some (Node.file i) → n ≠ f0 → i ≠ j) ∧
        (∀ e' k, lookup S e' = some (Node.file k) → k ≠ j) ∧
        (copyFile (snapPath e.name) [f0] w).1.content
          = (fun i => if i = j then w.content k0 else w.content i) ∧
        (∀ n x, lookup (copyFile (snapPath e.name) [f0] w).1.top n = some x →
          lookup w.top n = some x ∨ x = Node.file j) := by
      rcases gc with ⟨_, _, hoth⟩ | ⟨i, data, hlk, _, htop, hcn, hdata⟩ |
        ⟨data, hlk, _, htop, hcn, hdata⟩
      · exfalso
        rcases hplain f0 _ (hoth hr2) with ⟨i, hi⟩ | ⟨i, hi⟩ <;> cases hi
      · obtain ⟨s, hs, hdat⟩ := hdata hr2
        rw [hsrc] at hs
        simp only [Resolved.file.injEq] at hs
        subst hs
        have hik : i ≠ k0 := hsep f0 i hlk _ k0 hk0
        have hki : ¬ k0 = i := fun e0 => hik e0.symm
        refine ⟨i, by rw [htop]; exact hlk, ?_, ?_, ?_, ?_⟩
        · intro n i' hn hne e0
          subst e0
          exact hne (hinj n f0 i' hn hlk)
        · intro e' k hk e0
          subst e0
          exact hsep f0 k hlk e' k hk rfl
        · rw [hcn, hdat]
          simp [hki]
        · intro n x hx
          rw [htop] at hx
          exact Or.inl hx
      · obtain ⟨s, hs, hdat⟩ := hdata hr2
        rw [hsrc] at hs
        simp only [Resolved.file.injEq] at hs
        subst hs
        refine ⟨freshIno w, by rw [htop]; exact lookup_setEntry_self _ _ _, ?_, ?_, ?_, ?_⟩
        · intro n i' hn _
          exact Nat.ne_of_lt (lt_freshIno w i' (mem_allInos_top w i'
            (mem_inosOf _ n i' (mem_of_lookup _ _ _ hn))))
        · intro e' k hk
          exact Nat.ne_of_lt (lt_freshIno w k (mem_allInos_sub w id S k hS
            (mem_inosOf _ e' k (mem_of_lookup _ _ _ hk))))
        · rw [hcn, hdat]
        · intro n x hx
          rw [htop, lookup_setEntry] at hx
          by_cases hn : f0 = n
          · simp only [hn, if_true, Option.some.injEq] at hx
            exact Or.inr hx.symm
          · simp only [hn, if_false] at hx
            exact Or.inl hx
    obtain ⟨j, hj, hjtop, hjsnap, hcont, hback⟩ := hdid
    have hplain1 : TopPlain (copyFile (snapPath e.name) [f0] w).1 := by
      intro n x hx
      rcases hback n x hx with h0 | h0
      · exact hplain n x h0
      · exact Or.inl ⟨j, h0⟩
    have hsep1 : ∀ n i, lookup (copyFile (snapPath e.name) [f0] w).1.top n = some (Node.file i) →
        ∀ e' k, lookup S e' = some (Node.file k) → i ≠ k := by
      intro n i hn e' k hk
      rcases hback n _ hn with h0 | h0
      · exact hsep n i h0 e' k hk
      · simp only [Node.file.injEq] at h0
        rw [h0]
        exact fun e0 => hjsnap e' k hk e0.symm
    have hes1 : ∀ e' ∈ rest, ∃ f k, e' = ⟨snapshotName f t, true⟩ ∧
        lookup S e'.name = some (Node.file k) ∧
        ∀ c, G f = some c → (copyFile (snapPath e.name) [f0] w).1.content k = c := by
      intro e' he'
      obtain ⟨f, k, a1, a2, a3⟩ := hes e' (List.mem_cons_of_mem _ he')
      refine ⟨f, k, a1, a2, ?_⟩
      intro c hc
      rw [hcont]
      simp [hjsnap _ k a2, a3 c hc]
    obtain ⟨herr, hall⟩ := ih _ (g2 _ _ hd) (by rw [gsubs]; exact hS) hplain1 (g6 hinj) hsep1
      hes1 hlog.2
    refine ⟨herr, ?_⟩
    intro f c hG h
    apply hall f c hG
    by_cases hf : f = f0
    · right
      subst hf
      rw [topFile_of _ f j hj, hcont]
      simp [hG0 c hG]
    · rcases h with h | h
      · rcases List.mem_cons.1 h with h0 | h0
        · exfalso
          rw [he] at h0
          simp only [DirEntry.mk.injEq, and_true] at h0
          exact hf (snapshotName_inj _ _ _ h0)
        · exact Or.inl h0
      · right
        obtain ⟨i, hi, hci⟩ := topFile_some w f c h
        rw [topFile_of _ f i (g2 f _ hi), hcont]
        simp [hjtop f i hi hf, hci]

/-- C1, amended.  Let the snapshot directory be absent or an empty directory, let no
top-level name hold a `/` (entry names never do), let the tag be fourteen decimal
digits and let `createSnapshots` report no failure.  Let the world then change in any
way that leaves the snapshot directory, its entries and their contents as they are,
and in which every top-level entry is a regular file or a directory, no two top-level
names are hard links to one file and none is a hard link to a snapshot.  Let
`restoreSnapshots` report no failure.  Then it returns no error and every top-level
regular file present before `createSnapshots` exists with the content it had then. -/
theorem C1_restore_roundtrip (w0 : World) (tag : String) (w2 : World)
    (hnames : ∀ p ∈ w0.top, '/' ∉ p.1.data)
    (hsnap0 : lookup w0.top snapshotDir = none ∨
      ∃ id, lookup w0.top snapshotDir = some (Node.dir id) ∧ lookup w0.subs id = some [])
    (htag : isRunTag tag = true)
    (hcreate : (createSnapshots tag w0).2 = [])
    (hkeepDir : lookup w2.top snapshotDir = lookup (createSnapshots tag w0).1.top snapshotDir)
    (hkeepRow : ∀ id, lookup (createSnapshots tag w0).1.top snapshotDir = some (Node.dir id) →
      lookup w2.subs id = lookup (createSnapshots tag w0).1.subs id)
    (hkeepData : ∀ k ∈ snapInos (createSnapshots tag w0).1,
      w2.content k = (createSnapshots tag w0).1.content k)
    (hplain : plainTop w2 = true) (hhard : noHardLinks w2 = true)
    (hapart : snapshotsApart w2 = true)
    (hrestore : noIOError (restoreSnapshots tag w2).log = true)
    (f c : String) (hf : topFile w0 f = some c) :
    (restoreSnapshots tag w2).err = none ∧
      topFile (restoreSnapshots tag w2).world f = some c := by
  obtain ⟨id, S, ⟨hd1, hS1, hfiles, _, _⟩, hSnames, hall⟩ :=
    createSnapshots_spec tag w0 hnames (isRunTag_no_slash tag htag) hsnap0 hcreate
  have hd2 : lookup w2.top snapshotDir = some (Node.dir id) := hkeepDir.trans hd1
  have hS2 : lookup w2.subs id = some S := (hkeepRow id hd1).trans hS1
  have hdata : ∀ e k, lookup S e = some (Node.file k) →
      w2.content k = (createSnapshots tag w0).1.content k := by
    intro e k hk
    apply hkeepData
    rw [snapInos_eq _ id S hd1 hS1]
    exact mem_inosOf _ e k (mem_of_lookup _ _ _ hk)
  have hlist : readDirSnap w2 = some (S.map DirEntry.ofNode) := by
    rw [readDirSnap_eq w2 id S hd2 hS2]
    by_cases hr : w2.faults.readSnapFails = true
    · exfalso
      have : restoreSnapshots tag w2 = ⟨w2, none, [Msg.opendirSnapshotFailed]⟩ := by
        simp [restoreSnapshots, readDirSnap_eq w2 id S hd2 hS2, hr]
      rw [this] at hrestore
      have hno : noIOError [Msg.opendirSnapshotFailed] = false := by decide
      rw [hno] at hrestore
      cases hrestore
    · simp [hr]
  have hr : restoreSnapshots tag w2 = restoreLoop tag (S.map DirEntry.ofNode) w2 := by
    simp [restoreSnapshots, hlist]
  rw [hr] at hrestore ⊢
  have hes : ∀ e ∈ S.map DirEntry.ofNode, ∃ g k, e = ⟨snapshotName g tag, true⟩ ∧
      lookup S e.name = some (Node.file k) ∧
      ∀ c, topFile w0 g = some c → w2.content k = c := by
    intro e he
    obtain ⟨p, hp, hpe⟩ := List.mem_map.1 he
    obtain ⟨g, hg⟩ := hSnames p hp
    obtain ⟨k0, hk0⟩ := hfiles p hp
    obtain ⟨y, hy⟩ := lookup_isSome_of_mem S p hp
    obtain ⟨k, hk⟩ := hfiles _ (mem_of_lookup _ _ _ hy)
    simp only at hk
    subst hk
    have hen : e = ⟨snapshotName g tag, true⟩ := by
      rw [← hpe]
      simp [DirEntry.ofNode, hg, hk0]
    refine ⟨g, k, hen, by rw [hen, ← hg]; exact hy, ?_⟩
    intro c hc
    obtain ⟨i, hi, hci⟩ := topFile_some w0 g c hc
    obtain ⟨k', a1, a2⟩ := hall g i hi
    rw [← hg, hy] at a1
    simp only [Option.some.injEq, Node.file.injEq] at a1
    subst a1
    rw [hdata _ k hy, a2, hci]
  obtain ⟨herr, hrt⟩ := restoreLoop_roundtrip (topFile w0) tag (isRunTag_no_dot tag htag) id S
    (S.map DirEntry.ofNode) w2 hd2 hS2 (topPlain_of w2 hplain) (topInjective_of w2 hhard)
    (apart_of w2 hapart id S hd2 hS2) hes hrestore
  refine ⟨herr, hrt f c hf (Or.inl ?_)⟩
  obtain ⟨i, hi, _⟩ := topFile_some w0 f c hf
  obtain ⟨k, a1, _⟩ := hall f i hi
  exact List.mem_map.2 ⟨(snapshotName f tag, Node.file k), mem_of_lookup _ _ _ a1, rfl⟩

/-- C1 at the sample directory: `a.txt` holds `1` and `b.txt` holds `2`, the command
overwrites `a.txt` with `3` and fails, and `restoreSnapshots` brings `1` back and leaves
`2` in `b.txt`. -/
theorem C1_restore_roundtrip_witness :
    topFile (sampleShell "" (createSnapshots sampleTag sampleWorld).1).1 "a.txt" = some "3" ∧
      ((restoreSnapshots sampleTag
          (sampleShell "" (createSnapshots sampleTag sampleWorld).1).1).err = none ∧
        topFile (restoreSnapshots sampleTag
          (sampleShell "" (createSnapshots sampleTag sampleWorld).1).1).world "a.txt"
          = some "1") ∧
      ((restoreSnapshots sampleTag
          (sampleShell "" (createSnapshots sampleTag sampleWorld).1).1).err = none ∧
        topFile (restoreSnapshots sampleTag
          (sampleShell "" (createSnapshots sampleTag sampleWorld).1).1).world "b.txt"
          = some "2") :=
  ⟨by decide,
    C1_restore_roundtrip sampleWorld sampleTag
      (sampleShell "" (createSnapshots sampleTag sampleWorld).1).1
      (by decide) (Or.inl (by decide)) (by decide) (by decide) (by decide) (fun _ _ => rfl)
      (by decide) (by decide) (by decide) (by decide) (by decide) "a.txt" "1" (by decide),
    C1_restore_roundtrip sampleWorld sampleTag
      (sampleShell "" (createSnapshots sampleTag sampleWorld).1).1
      (by decide) (Or.inl (by decide)) (by decide) (by decide) (by decide) (fun _ _ => rfl)
      (by decide) (by decide) (by decide) (by decide) (by decide) "b.txt" "2" (by decide)⟩

/-- C1 as stated fails.  The snapshot directory is absent at first, the tag has the
format of the generator and `createSnapshots` reports nothing.  First run: the failed
command replaces `b.txt` by a symbolic link to `a.txt` and leaves the snapshot
directory alone; `restoreSnapshots` reports no failure and returns no error, and
`a.txt`, which held `1`, ends with `2`: the snapshot of `b.txt` was written through the
link.  Second run: the same with a hard link instead of the symbolic link.  Third run:
the command replaces `a.txt` by a hard link to the snapshot of `b.txt`, and `b.txt`,
which held `2`, ends with `1`.  Fourth run: the command replaces `a.txt` by a named
pipe, the copy into it succeeds, and no regular file `a.txt` exists afterwards. -/
theorem C1_counterexample :
    (lookup sampleWorld.top snapshotDir = none ∧ isRunTag sampleTag = true ∧
      (createSnapshots sampleTag sampleWorld).2 = [] ∧
      topFile sampleWorld "a.txt" = some "1" ∧ topFile sampleWorld "b.txt" = some "2") ∧
    (lookup (linkShell "" (createSnapshots sampleTag sampleWorld).1).1.top snapshotDir
        = lookup (createSnapshots sampleTag sampleWorld).1.top snapshotDir ∧
      (linkShell "" (createSnapshots sampleTag sampleWorld).1).1.subs
        = (createSnapshots sampleTag sampleWorld).1.subs ∧
      (∀ k ∈ snapInos (createSnapshots sampleTag sampleWorld).1,
        (linkShell "" (createSnapshots sampleTag sampleWorld).1).1.content k
          = (createSnapshots sampleTag sampleWorld).1.content k) ∧
      noIOError (restoreSnapshots sampleTag
        (linkShell "" (createSnapshots sampleTag sampleWorld).1).1).log = true ∧
      (restoreSnapshots sampleTag
        (linkShell "" (createSnapshots sampleTag sampleWorld).1).1).err = none ∧
      topFile (restoreSnapshots sampleTag
        (linkShell "" (createSnapshots sampleTag sampleWorld).1).1).world "a.txt"
        = some "2") ∧
    (lookup (hardLinkShell "" (createSnapshots sampleTag sampleWorld).1).1.top snapshotDir
        = lookup (createSnapshots sampleTag sampleWorld).1.top snapshotDir ∧
      (hardLinkShell "" (createSnapshots sampleTag sampleWorld).1).1.subs
        = (createSnapshots sampleTag sampleWorld).1.subs ∧
      (∀ k ∈ snapInos (createSnapshots sampleTag sampleWorld).1,
        (hardLinkShell "" (createSnapshots sampleTag sampleWorld).1).1.content k
          = (createSnapshots sampleTag sampleWorld).1.content k) ∧
      noIOError (restoreSnapshots sampleTag
        (hardLinkShell "" (createSnapshots sampleTag sampleWorld).1).1).log = true ∧
      (restoreSnapshots sampleTag
        (hardLinkShell "" (createSnapshots sampleTag sampleWorld).1).1).err = none ∧
      topFile (restoreSnapshots sampleTag
        (hardLinkShell "" (createSnapshots sampleTag sampleWorld).1).1).world "a.txt"
        = some "2") ∧
    (lookup (snapLinkShell "" (createSnapshots sampleTag sampleWorld).1).1.top snapshotDir
        = lookup (createSnapshots sampleTag sampleWorld).1.top snapshotDir ∧
      (snapLinkShell "" (createSnapshots sampleTag sampleWorld).1).1.subs
        = (createSnapshots sampleTag sampleWorld).1.subs ∧
      (∀ k ∈ snapInos (createSnapshots sampleTag sampleWorld).1,
        (snapLinkShell "" (createSnapshots sampleTag sampleWorld).1).1.content k
          = (createSnapshots sampleTag sampleWorld).1.content k) ∧
      noIOError (restoreSnapshots sampleTag
        (snapLinkShell "" (createSnapshots sampleTag sampleWorld).1).1).log = true ∧
      (restoreSnapshots sampleTag
        (snapLinkShell "" (createSnapshots sampleTag sampleWorld).1).1).err = none ∧
      topFile (restoreSnapshots sampleTag
        (snapLinkShell "" (createSnapshots sampleTag sampleWorld).1).1).world "b.txt"
        = some "1") ∧
    (lookup (pipeShell "" (createSnapshots sampleTag sampleWorld).1).1.top snapshotDir
        = lookup (createSnapshots sampleTag sampleWorld).1.top snapshotDir ∧
      (pipeShell "" (createSnapshots sampleTag sampleWorld).1).1.subs
        = (createSnapshots sampleTag sampleWorld).1.subs ∧
      (∀ k ∈ snapInos (createSnapshots sampleTag sampleWorld).1,
        (pipeShell "" (createSnapshots sampleTag sampleWorld).1).1.content k
          = (createSnapshots sampleTag sampleWorld).1.content k) ∧
      noIOError (restoreSnapshots sampleTag
        (pipeShell "" (createSnapshots sampleTag sampleWorld).1).1).log = true ∧
      (restoreSnapshots sampleTag
        (pipeShell "" (createSnapshots sampleTag sampleWorld).1).1).err = none ∧
      topFile (restoreSnapshots sampleTag
        (pipeShell "" (createSnapshots sampleTag sampleWorld).1).1).world "a.txt"
        = none) :=
  ⟨by decide, by decide, by decide, by decide, by decide⟩

/-! ## cleanup -/

theorem readDirSnap_absent (w : World) (h : lookup w.top snapshotDir = none) :
    readDirSnap w = none := by
  have hf := follow_absent_of w maxSymlinks DirRef.cwd snapshotDir w.top
    snapshotDir_not_special rfl h
  simp [readDirSnap, snapDir, hf]

theorem resolveParent_snapPath (w : World) (id : Nat) (name : String)
    (hd : lookup w.top snapshotDir = some (Node.dir id)) :
    resolveParent w DirRef.cwd (snapPath name) = some (DirRef.sub id, name) := by
  have hf := follow_dir_of w maxSymlinks DirRef.cwd snapshotDir w.top id
    snapshotDir_not_special rfl hd
  simp [snapPath, resolveParent, hf]

/-- Removing an entry of a snapshot directory that is a directory of its own touches
neither the top level nor any content. -/
theorem osRemove_snapPath_frame (w : World) (id : Nat) (name : String)
    (hd : lookup w.top snapshotDir = some (Node.dir id)) :
    (osRemove (snapPath name) w).1.top = w.top ∧
      (osRemove (snapPath name) w).1.content = w.content ∧
      (osRemove (snapPath name) w).1.faults = w.faults := by
  unfold osRemove
  rw [resolveParent_snapPath w id name hd]
  simp only [entriesOf]
  repeat' split
  all_goals exact ⟨rfl, rfl, rfl⟩

theorem cleanupLoop_frame (L : List DirEntry) (w : World) (id : Nat)
    (hd : lookup w.top snapshotDir = some (Node.dir id)) :
    (cleanupLoop L w).1.top = w.top ∧ (cleanupLoop L w).1.content = w.content ∧
      (cleanupLoop L w).1.faults = w.faults := by
  induction L generalizing w with
  | nil => exact ⟨rfl, rfl, rfl⟩
  | cons e rest ih =>
    by_cases he : e.isRegular = true
    · simp only [cleanupLoop, he, if_true]
      obtain ⟨h1, h2, h3⟩ := osRemove_snapPath_frame w id e.name hd
      obtain ⟨h4, h5, h6⟩ := ih (osRemove (snapPath e.name) w).1 (by rw [h1]; exact hd)
      exact ⟨h4.trans h1, h5.trans h2, h6.trans h3⟩
    · simp only [cleanupLoop, he, if_false, Bool.false_eq_true]
      exact ih w hd

theorem osRemove_snap_file (w : World) (id : Nat) (S : List (String × Node)) (name : String)
    (i : Nat) (hd : lookup w.top snapshotDir = some (Node.dir id))
    (hS : lookup w.subs id = some S) (hl : lookup S name = some (Node.file i))
    (hrm : w.faults.removeFails (snapPath name) = false) :
    osRemove (snapPath name) w
      = (setEntries w (DirRef.sub id) (eraseEntry S name), false) := by
  unfold osRemove
  rw [resolveParent_snapPath w id name hd]
  simp [entriesOf, hS, hl, hrm]

theorem osRemove_snap_none (w : World) (id : Nat) (S : List (String × Node)) (name : String)
    (hd : lookup w.top snapshotDir = some (Node.dir id))
    (hS : lookup w.subs id = some S) (hl : lookup S name = none) :
    (osRemove (snapPath name) w).1 = w := by
  unfold osRemove
  rw [resolveParent_snapPath w id name hd]
  simp only [entriesOf, hS, hl]
  split <;> rfl

/-- The loop of `cleanup` empties a directory of regular files. -/
theorem cleanupLoop_empties (L : List DirEntry) (w : World) (id : Nat)
    (S : List (String × Node))
    (hd : lookup w.top snapshotDir = some (Node.dir id)) (hS : lookup w.subs id = some S)
    (hfiles : ∀ p ∈ S, ∃ i, p.2 = Node.file i)
    (hnames : ∀ p ∈ S, ∃ e ∈ L, e.name = p.1)
    (hreg : ∀ e ∈ L, e.isRegular = true)
    (hrm : ∀ p, w.faults.removeFails p = false) :
    lookup (cleanupLoop L w).1.subs id = some [] := by
  induction L generalizing w S with
  | nil =>
    cases S with
    | nil => exact hS
    | cons p S =>
      obtain ⟨e, he, _⟩ := hnames p (List.mem_cons_self _ _)
      cases he
  | cons e rest ih =>
    have he := hreg e (List.mem_cons_self _ _)
    have hreg1 : ∀ e1 ∈ rest, e1.isRegular = true :=
      fun e1 he1 => hreg e1 (List.mem_cons_of_mem _ he1)
    simp only [cleanupLoop, he, if_true]
    cases hl : lookup S e.name with
    | none =>
      rw [osRemove_snap_none w id S e.name hd hS hl]
      refine ih w S hd hS hfiles ?_ hreg1 hrm
      intro p hp
      obtain ⟨e1, he1, hn⟩ := hnames p hp
      rcases List.mem_cons.1 he1 with h0 | h0
      · exfalso
        rw [h0] at hn
        obtain ⟨y, hy⟩ := lookup_isSome_of_mem S p hp
        rw [← hn, hl] at hy
        cases hy
      · exact ⟨e1, h0, hn⟩
    | some y =>
      obtain ⟨i, hi⟩ := hfiles (e.name, y) (mem_of_lookup S e.name y hl)
      simp only at hi
      subst hi
      rw [osRemove_snap_file w id S e.name i hd hS hl (hrm _)]
      refine ih _ (eraseEntry S e.name) hd ?_ ?_ ?_ hreg1 hrm
      · exact lookup_setEntry_self _ _ _
      · intro p hp
        exact hfiles p ((mem_eraseEntry S e.name p).1 hp).1
      · intro p hp
        obtain ⟨hp1, hp2⟩ := (mem_eraseEntry S e.name p).1 hp
        obtain ⟨e1, he1, hn⟩ := hnames p hp1
        rcases List.mem_cons.1 he1 with h0 | h0
        · rw [h0] at hn
          exact absurd hn.symm hp2
        · exact ⟨e1, h0, hn⟩

/-- The function `cleanup` removes a snapshot directory that is absent already or holds
regular files only, when nothing fails. -/
theorem cleanup_removes (w : World)
    (hreg : lookup w.top snapshotDir = none ∨
      ∃ id S, lookup w.top snapshotDir = some (Node.dir id) ∧ lookup w.subs id = some S ∧
        ∀ p ∈ S, ∃ i, p.2 = Node.file i)
    (hlist : w.faults.readSnapFails = false) (hrm : ∀ p, w.faults.removeFails p = false) :
    lookup (cleanup w).1.top snapshotDir = none := by
  rcases hreg with h | ⟨id, S, hd, hS, hfiles⟩
  · simp [cleanup, readDirSnap_absent w h, h]
  · have hl : readDirSnap w = some (S.map DirEntry.ofNode) := by
      rw [readDirSnap_eq w id S hd hS]
      simp [hlist]
    have hempty := cleanupLoop_empties (S.map DirEntry.ofNode) w id S hd hS hfiles
      (fun p hp => ⟨DirEntry.ofNode p, List.mem_map_of_mem _ hp, rfl⟩)
      (by
        intro e he
        obtain ⟨p, hp, hpe⟩ := List.mem_map.1 he
        obtain ⟨i, hi⟩ := hfiles p hp
        rw [← hpe]
        simp [DirEntry.ofNode, hi])
      hrm
    obtain ⟨f1, _, f3⟩ := cleanupLoop_frame (S.map DirEntry.ofNode) w id hd
    have hd1 : lookup (cleanupLoop (S.map DirEntry.ofNode) w).1.top snapshotDir
        = some (Node.dir id) := by rw [f1]; exact hd
    simp only [cleanup, hl]
    unfold osRemove
    simp only [resolveParent, entriesOf, hd1, hempty, f3, hrm, Bool.false_eq_true, if_false,
      setEntries]
    rw [lookup_eraseEntry]
    simp

/-! ## restoreSnapshots and the snapshot directory -/

/-- A copy, wherever it writes, leaves a snapshot directory of regular files one. -/
theorem copyFile_keeps_files (src dst : Path) (w : World) (id : Nat)
    (S : List (String × Node))
    (hd : lookup w.top snapshotDir = some (Node.dir id)) (hS : lookup w.subs id = some S)
    (hfiles : ∀ p ∈ S, ∃ i, p.2 = Node.file i) :
    lookup (copyFile src dst w).1.top snapshotDir = some (Node.dir id) ∧
      ∃ S1, lookup (copyFile src dst w).1.subs id = some S1 ∧
        ∀ p ∈ S1, ∃ i, p.2 = Node.file i := by
  rcases copyFile_effect src dst w with ⟨h, _⟩ | ⟨i, data, _, h, _⟩ |
    ⟨d, n, es, data, _, hes, hl, h, _⟩
  · rw [h]
    exact ⟨hd, S, hS, hfiles⟩
  · rw [h]
    exact ⟨hd, S, hS, hfiles⟩
  · rw [h]
    cases d with
    | cwd =>
      simp only [entriesOf, Option.some.injEq] at hes
      subst hes
      have hne : snapshotDir ≠ n := by
        intro e0
        rw [← e0, hd] at hl
        cases hl
      refine ⟨?_, S, hS, hfiles⟩
      show lookup (setEntry w.top n _) snapshotDir = _
      rw [lookup_setEntry_ne _ _ _ _ hne]
      exact hd
    | sub id1 =>
      simp only [entriesOf] at hes
      refine ⟨hd, ?_⟩
      show ∃ S1, lookup (setEntry w.subs id1 _) id = some S1 ∧ _
      by_cases hid : id1 = id
      · subst hid
        rw [hS] at hes
        simp only [Option.some.injEq] at hes
        subst hes
        refine ⟨_, lookup_setEntry_self _ _ _, ?_⟩
        intro p hp
        rcases mem_setEntry _ _ _ _ hp with h0 | h0
        · exact hfiles p h0
        · exact ⟨freshIno w, by rw [h0]⟩
      · rw [lookup_setEntry_ne _ _ _ _ (fun e0 => hid e0.symm)]
        exact ⟨S, hS, hfiles⟩

theorem restoreLoop_keeps_files (t : String) (es : List DirEntry) (w : World) (id : Nat)
    (S : List (String × Node))
    (hd : lookup w.top snapshotDir = some (Node.dir id)) (hS : lookup w.subs id = some S)
    (hfiles : ∀ p ∈ S, ∃ i, p.2 = Node.file i) :
    lookup (restoreLoop t es w).world.top snapshotDir = some (Node.dir id) ∧
      ∃ S1, lookup (restoreLoop t es w).world.subs id = some S1 ∧
        ∀ p ∈ S1, ∃ i, p.2 = Node.file i := by
  induction es generalizing w S with
  | nil => exact ⟨hd, S, hS, hfiles⟩
  | cons e es ih =>
    unfold restoreLoop
    split
    · exact ih w S hd hS hfiles
    · exact ⟨hd, S, hS, hfiles⟩
    · simp only
      obtain ⟨h1, S1, h2, h3⟩ := copyFile_keeps_files (snapPath e.name) [_] w id S hd hS hfiles
      exact ih _ S1 h1 h2 h3

/-- The function `restoreSnapshots` leaves a snapshot directory that is absent absent,
and one that holds regular files only such a one; the oracle is not touched. -/
theorem restoreSnapshots_keeps_files (t : String) (w : World)
    (hreg : lookup w.top snapshotDir = none ∨
      ∃ id S, lookup w.top snapshotDir = some (Node.dir id) ∧ lookup w.subs id = some S ∧
        ∀ p ∈ S, ∃ i, p.2 = Node.file i) :
    (lookup (restoreSnapshots t w).world.top snapshotDir = none ∨
      ∃ id S, lookup (restoreSnapshots t w).world.top snapshotDir = some (Node.dir id) ∧
        lookup (restoreSnapshots t w).world.subs id = some S ∧
        ∀ p ∈ S, ∃ i, p.2 = Node.file i) ∧
      (restoreSnapshots t w).world.faults = w.faults := by
  rcases hreg with h | ⟨id, S, hd, hS, hfiles⟩
  · have : restoreSnapshots t w = ⟨w, none, [Msg.opendirSnapshotFailed]⟩ := by
      simp [restoreSnapshots, readDirSnap_absent w h]
    rw [this]
    exact ⟨Or.inl h, rfl⟩
  · unfold restoreSnapshots
    split
    · exact ⟨Or.inr ⟨id, S, hd, hS, hfiles⟩, rfl⟩
    · refine ⟨Or.inr ?_, restoreLoop_faults _ _ _⟩
      obtain ⟨h1, S1, h2, h3⟩ := restoreLoop_keeps_files t _ w id S hd hS hfiles
      exact ⟨id, S1, h1, h2, h3⟩

/-! ## main -/

theorem args_length (args : List String) (h : args ≠ []) : ¬ (args.length + 1 < 2) := by
  cases args with
  | nil => exact absurd rfl h
  | cons a rest => simp

/-- C5.  Exit status of `main`: 1, with the world untouched, when no command is given;
0 when the command exits 0; the command's own exit code when it fails and
`restoreSnapshots` returns no error; 1 when the command could not be started.  The
world and its oracle are arbitrary, so neither a failure in `createSnapshots` nor one
in `cleanup` changes the status. -/
theorem C5_exit_code (t : String) (sh : Shell) (w : World) :
    ((main [] t sh w).status = 1 ∧ (main [] t sh w).world = w) ∧
    ∀ args, args ≠ [] →
      ((sh (joinArgs args) (createSnapshots t w).1).2 = RunResult.success →
        (main args t sh w).status = 0) ∧
      (∀ n, (sh (joinArgs args) (createSnapshots t w).1).2 = RunResult.exitError n →
        (restoreSnapshots t (sh (joinArgs args) (createSnapshots t w).1).1).err = none →
        (main args t sh w).status = n) ∧
      ((sh (joinArgs args) (createSnapshots t w).1).2 = RunResult.startError →
        (main args t sh w).status = 1) := by
  refine ⟨⟨rfl, rfl⟩, ?_⟩
  intro args hargs
  refine ⟨?_, ?_, ?_⟩
  · intro h
    unfold main
    simp only [args_length args hargs, if_false, h]
  · intro n h herr
    unfold main
    simp only [args_length args hargs, if_false, h, herr]
  · intro h
    unfold main
    simp only [args_length args hargs, if_false, h]
    split <;> rfl

/-- C5 at the sample directory: the failing command's status 1 is passed on, and a
command that cannot be started gives status 1 even when nothing can be snapshotted. -/
theorem C5_exit_code_witness :
    (main ["x"] sampleTag sampleShell sampleWorld).status = 1 ∧
      (main ["x"] sampleTag missingShell nestedWorld).status = 1 ∧
      (main ["x"] sampleTag overwriteShell sampleWorld).status = 0 :=
  ⟨((C5_exit_code sampleTag sampleShell sampleWorld).2 ["x"] (by decide)).2.1 1
      (by decide) (by decide),
    ((C5_exit_code sampleTag missingShell nestedWorld).2 ["x"] (by decide)).2.2 (by decide),
    ((C5_exit_code sampleTag overwriteShell sampleWorld).2 ["x"] (by decide)).1 (by decide)⟩

/-- C6, amended.  Let the run not hit the hard abort, let the snapshot directory, as the
command leaves it, be absent or a directory that holds regular files only, and let
listing it and removing a file or an empty directory succeed.  Then after `main` there
is no entry `.rof_snapshots`. -/
theorem C6_cleanup_totality (args : List String) (t : String) (sh : Shell) (w : World)
    (hargs : args ≠ [])
    (hrun : (sh (joinArgs args) (createSnapshots t w).1).2 = RunResult.success ∨
      (restoreSnapshots t (sh (joinArgs args) (createSnapshots t w).1).1).err = none)
    (hreg : lookup (sh (joinArgs args) (createSnapshots t w).1).1.top snapshotDir = none ∨
      ∃ id S, lookup (sh (joinArgs args) (createSnapshots t w).1).1.top snapshotDir
          = some (Node.dir id) ∧
        lookup (sh (joinArgs args) (createSnapshots t w).1).1.subs id = some S ∧
        ∀ p ∈ S, (DirEntry.ofNode p).isRegular = true)
    (hlist : (sh (joinArgs args) (createSnapshots t w).1).1.faults.readSnapFails = false)
    (hrm : ∀ p, (sh (joinArgs args) (createSnapshots t w).1).1.faults.removeFails p = false) :
    (main args t sh w).cleanupCalled = true ∧
      lookup (main args t sh w).world.top snapshotDir = none := by
  have hreg1 : lookup (sh (joinArgs args) (createSnapshots t w).1).1.top snapshotDir = none ∨
      ∃ id S, lookup (sh (joinArgs args) (createSnapshots t w).1).1.top snapshotDir
          = some (Node.dir id) ∧
        lookup (sh (joinArgs args) (createSnapshots t w).1).1.subs id = some S ∧
        ∀ p ∈ S, ∃ i, p.2 = Node.file i := by
    rcases hreg with h | ⟨id, S, hd, hS, hfiles⟩
    · exact Or.inl h
    · refine Or.inr ⟨id, S, hd, hS, ?_⟩
      intro p hp
      have := hfiles p hp
      cases hq : p.2 with
      | file i => exact ⟨i, rfl⟩
      | dir _ => simp [DirEntry.ofNode, hq] at this
      | link _ => simp [DirEntry.ofNode, hq] at this
      | other => simp [DirEntry.ofNode, hq] at this
  have hclean := cleanup_removes (sh (joinArgs args) (createSnapshots t w).1).1 hreg1 hlist hrm
  obtain ⟨hkeep, hfl⟩ := restoreSnapshots_keeps_files t
    (sh (joinArgs args) (createSnapshots t w).1).1 hreg1
  have hclean2 := cleanup_removes
    (restoreSnapshots t (sh (joinArgs args) (createSnapshots t w).1).1).world
    hkeep (by rw [hfl]; exact hlist) (by rw [hfl]; exact hrm)
  unfold main
  simp only [args_length args hargs, if_false]
  cases hc : (sh (joinArgs args) (createSnapshots t w).1).2 with
  | success => exact ⟨rfl, hclean⟩
  | exitError n =>
    rw [hc] at hrun
    rcases hrun with h | h
    · cases h
    · rw [h]
      exact ⟨rfl, hclean2⟩
  | startError =>
    rw [hc] at hrun
    rcases hrun with h | h
    · cases h
    · rw [h]
      exact ⟨rfl, hclean2⟩

/-- C6 at the sample directory with the failing command. -/
theorem C6_cleanup_totality_witness :
    (main ["x"] sampleTag sampleShell sampleWorld).cleanupCalled = true ∧
      lookup (main ["x"] sampleTag sampleShell sampleWorld).world.top snapshotDir = none :=
  C6_cleanup_totality ["x"] sampleTag sampleShell sampleWorld (by decide)
    (Or.inr (by decide))
    (Or.inr ⟨1, [("a.txt.20240102030405.bak", Node.file 3),
        ("b.txt.20240102030405.bak", Node.file 4)], by decide, by decide, by decide⟩)
    (by decide) (fun _ => rfl)

/-- C6 as stated fails: the snapshot directory of `nestedWorld` holds a subdirectory,
the command exits 0, removing files succeeds and removing the directory fails only
because it is not empty, and `.rof_snapshots` is still there after `main`. -/
theorem C6_counterexample :
    (trueShell "true" (createSnapshots sampleTag nestedWorld).1).2 = RunResult.success ∧
      (main ["true"] sampleTag trueShell nestedWorld).cleanupCalled = true ∧
      (main ["true"] sampleTag trueShell nestedWorld).log = [Msg.removeDirFailed] ∧
      lookup (main ["true"] sampleTag trueShell nestedWorld).world.top snapshotDir
        = some (Node.dir 10) ∧
      lookup (main ["true"] sampleTag trueShell nestedWorld).world.subs 10
        = some [("old", Node.dir 11)] := by
  decide

end Rof
